import Mathlib

/-!
Verification of the AgentZero hive coordination engine.

This file is a shallow embedding of `src/hive/coordinator.py` (class
`HiveCoordinator`) together with the `Priority` enum of `src/core/agent.py`.
Python dicts are modelled as insertion-ordered association lists (`dictInsert`
replaces in place, preserving the position of an existing key, exactly like a
Python dict update); `datetime` values are whole seconds (`Nat`); Python floats
are rationals; `timedelta.seconds` is floor-modulus by 86400 (`pySeconds`).
Operations that can raise a Python exception return `Except String HiveState`;
all other handlers are total state transformers, mirroring the source line by
line.  One deliberate simplification: when `_handle_task_complete` reads
`task.started_at` and it is `None` (Python would raise `TypeError`), the model
substitutes the current time; the affected field (`average_task_time`) is not
used by any theorem below.
-/

namespace AgentZero

/-- Task distribution strategies (`TaskDistributionStrategy` enum). -/
inductive TaskDistributionStrategy where
  | ROUND_ROBIN
  | LOAD_BALANCED
  | CAPABILITY_BASED
  | AUCTION_BASED
  | PRIORITY_BASED
deriving DecidableEq

/-- Registered agent record (`AgentInfo` dataclass).  The opaque `metadata`
dict is omitted; defaults are the dataclass defaults. -/
structure AgentInfo where
  agent_id : String
  name : String := ""
  capabilities : List String := []
  status : String := "idle"
  last_heartbeat : Nat := 0
  current_load : Int := 0
  max_load : Int := 5
  success_rate : ℚ := 1
  average_task_time : ℚ := 0
deriving DecidableEq

/-- Task managed by the hive (`HiveTask` dataclass).  The opaque `result`
payload is modelled as a string. -/
structure HiveTask where
  task_id : String
  name : String := ""
  description : String := ""
  required_capabilities : List String := []
  priority : Int := 3
  assigned_to : Option String := none
  created_at : Nat := 0
  started_at : Option Nat := none
  completed_at : Option Nat := none
  dependencies : List String := []
  result : Option String := none
  error : Option String := none
deriving DecidableEq

/-- The mutable state of a `HiveCoordinator`: agent registry, connection
registry (only the keys matter: values are opaque connection objects), task
store and the numeric metrics dict.  `knowledge_base`, logging and the unused
`average_completion_time` metric are omitted. -/
structure HiveState where
  agents : List (String × AgentInfo)
  agent_connections : List String
  task_queue : List HiveTask
  active_tasks : List (String × HiveTask)
  completed_tasks : List HiveTask
  task_dependencies : List (String × List String)
  distribution_strategy : TaskDistributionStrategy
  metrics_total_agents : Nat
  metrics_active_agents : Int
  metrics_total_tasks : Nat
  metrics_completed_tasks : Nat
  metrics_failed_tasks : Nat
  metrics_hive_efficiency : ℚ
deriving DecidableEq

/-- Freshly constructed coordinator (`HiveCoordinator.__init__`). -/
def initState (strategy : TaskDistributionStrategy) : HiveState :=
  { agents := []
    agent_connections := []
    task_queue := []
    active_tasks := []
    completed_tasks := []
    task_dependencies := []
    distribution_strategy := strategy
    metrics_total_agents := 0
    metrics_active_agents := 0
    metrics_total_tasks := 0
    metrics_completed_tasks := 0
    metrics_failed_tasks := 0
    metrics_hive_efficiency := 0 }

/-- Python-dict insertion: replace the value in place if the key is present
(keeping its position, as dicts do), otherwise append at the end. -/
def dictInsert {β : Type} (k : String) (v : β) : List (String × β) → List (String × β)
  | [] => [(k, v)]
  | p :: ps => if p.1 = k then (k, v) :: ps else p :: dictInsert k v ps

/-- Python-dict in-place mutation of the entry at key `k` (first occurrence). -/
def dictUpdate {β : Type} (k : String) (f : β → β) : List (String × β) → List (String × β)
  | [] => []
  | p :: ps => if p.1 = k then (p.1, f p.2) :: ps else p :: dictUpdate k f ps

/-- Python-dict `del`. -/
def dictErase {β : Type} (k : String) (l : List (String × β)) : List (String × β) :=
  l.filter (fun p => p.1 ≠ k)

/-- Python-dict subscript / `.get`: value at the first occurrence of the key. -/
def dictLookup {β : Type} (k : String) : List (String × β) → Option β
  | [] => none
  | p :: ps => if p.1 = k then some p.2 else dictLookup k ps

/-- Python-dict `in`. -/
def dictContains {β : Type} (k : String) : List (String × β) → Bool
  | [] => false
  | p :: ps => p.1 = k || dictContains k ps

/-- Python `timedelta.seconds`: a timedelta is normalised to days plus a
seconds component in `[0, 86400)`; for a whole-second difference `d` the
seconds component is the floor modulus `d % 86400` (Python `%` semantics). -/
def pySeconds (d : Int) : Int := d.emod 86400

/-- `_get_available_agents`: capability superset, spare load, heartbeat whose
`timedelta.seconds` is under 30; returns ids in registry (insertion) order. -/
def getAvailableAgents (now : Nat) (required_capabilities : List String)
    (st : HiveState) : List String :=
  (st.agents.filter (fun p =>
      required_capabilities.all (fun c => c ∈ p.2.capabilities) &&
      decide (p.2.current_load < p.2.max_load) &&
      decide (pySeconds ((now : Int) - (p.2.last_heartbeat : Int)) < 30))).map Prod.fst

/-- Python `max(xs, key=score)`: first element attaining the maximal score
(later elements replace the champion only on a strictly greater score). -/
def pickFirstMax (score : String → ℚ) (a : String) (rest : List String) : String :=
  rest.foldl (fun best b => if score best < score b then b else best) a

/-- Python `min(xs, key=score)`: first element attaining the minimal score. -/
def pickFirstMin (score : String → ℚ) (a : String) (rest : List String) : String :=
  rest.foldl (fun best b => if score b < score best then b else best) a

/-- Scoring of `_select_by_capability`: distinct required capabilities also
held by the agent, divided by the agent's total capability count. -/
def capabilityScore (st : HiveState) (task : HiveTask) (aid : String) : ℚ :=
  match dictLookup aid st.agents with
  | none => 0
  | some info =>
    let overlap :=
      (task.required_capabilities.dedup.filter (fun c => c ∈ info.capabilities)).length
    if 0 < info.capabilities.length then (overlap : ℚ) / (info.capabilities.length : ℚ)
    else 0

/-- Scoring of `_select_by_performance`: `success_rate * 0.7` plus a speed
term `(1 / average_task_time) * 0.3` when the average is positive. -/
def performanceScore (st : HiveState) (aid : String) : ℚ :=
  match dictLookup aid st.agents with
  | none => 0
  | some info =>
    info.success_rate * (7 / 10) +
      (if 0 < info.average_task_time then (1 / info.average_task_time) * (3 / 10) else 0)

/-- Key function of the `LOAD_BALANCED` branch: the agent's current load. -/
def loadScore (st : HiveState) (aid : String) : ℚ :=
  (((dictLookup aid st.agents).map AgentInfo.current_load).getD 0 : Int)

/-- `_run_task_auction`: for each agent, `send_message` returns a `Bool`
(truthy exactly when the agent has a connection).  The source then evaluates
`response.get("bid", inf)` on that Bool, which raises `AttributeError` at the
first connected agent; if no response is truthy the bid dict stays empty and
`None` is returned. -/
def runTaskAuction (agents : List String) (st : HiveState) :
    Except String (Option String) :=
  match agents.find? (fun a => st.agent_connections.contains a) with
  | some _ => Except.error "AttributeError"
  | none => Except.ok none

/-- `_select_agent_for_task`: dispatch on the configured strategy over the
non-empty list of available agents; `None` when no agent is available. -/
def selectAgentForTask (now : Nat) (st : HiveState) (task : HiveTask) :
    Except String (Option String) :=
  match getAvailableAgents now task.required_capabilities st with
  | [] => Except.ok none
  | a :: rest =>
    match st.distribution_strategy with
    | .CAPABILITY_BASED => Except.ok (some (pickFirstMax (capabilityScore st task) a rest))
    | .LOAD_BALANCED => Except.ok (some (pickFirstMin (loadScore st) a rest))
    | .AUCTION_BASED => runTaskAuction (a :: rest) st
    | .PRIORITY_BASED => Except.ok (some (pickFirstMax (performanceScore st) a rest))
    | .ROUND_ROBIN => Except.ok (some a)

/-- The task as stamped by `_assign_task_to_agent`: assignee and start set. -/
def stampTask (now : Nat) (aid : String) (task : HiveTask) : HiveTask :=
  { task with assigned_to := some aid, started_at := some now }

/-- `_assign_task_to_agent`: stamp the task, insert it into the active map and
increment the chosen agent's load (the outbound `TASK_ASSIGNMENT` message does
not change coordinator state). -/
def assignTaskToAgent (now : Nat) (task : HiveTask) (aid : String)
    (st : HiveState) : HiveState :=
  { st with
    active_tasks := dictInsert task.task_id (stampTask now aid task) st.active_tasks
    agents := dictUpdate aid (fun a => { a with current_load := a.current_load + 1 }) st.agents }

/-- Ids of every task in the terminal `completed_tasks` list. -/
def completedIds (st : HiveState) : List String :=
  st.completed_tasks.map HiveTask.task_id

/-- Second half of `_schedule_task`: consult the strategy and assign. -/
def scheduleReady (now : Nat) (task : HiveTask) (st : HiveState) :
    Except String HiveState :=
  match selectAgentForTask now st task with
  | Except.error e => Except.error e
  | Except.ok none => Except.ok st
  | Except.ok (some aid) => Except.ok (assignTaskToAgent now task aid st)

/-- Parking of a dependency-blocked task by `_schedule_task`: the incomplete
dependencies are recorded under the task id. -/
def parkTask (task : HiveTask) (st : HiveState) : HiveState :=
  { st with
    task_dependencies :=
      dictInsert task.task_id (task.dependencies.filter (fun d => d ∉ completedIds st))
        st.task_dependencies }

/-- `_schedule_task`: when the task has dependencies that are not all in the
completed list, record the incomplete ones and stop; otherwise select and
assign. -/
def scheduleTask (now : Nat) (task : HiveTask) (st : HiveState) :
    Except String HiveState :=
  if task.dependencies ≠ [] then
    if task.dependencies.filter (fun d => d ∉ completedIds st) ≠ [] then
      Except.ok (parkTask task st)
    else scheduleReady now task st
  else scheduleReady now task st

/-- Stable insertion into a priority-sorted list (helper for `sortByPriority`). -/
def sortInsertTask (t : HiveTask) : List HiveTask → List HiveTask
  | [] => [t]
  | u :: us => if u.priority < t.priority then u :: sortInsertTask t us
               else t :: u :: us

/-- `task_queue.sort(key=lambda t: t.priority)`: stable ascending sort. -/
def sortByPriority : List HiveTask → List HiveTask
  | [] => []
  | t :: ts => sortInsertTask t (sortByPriority ts)

/-- The queue/metrics mutation of `submit_task`: append the task, bump the
submission metric and re-sort the queue by priority (stable ascending). -/
def enqueueTask (task : HiveTask) (st : HiveState) : HiveState :=
  { st with
    task_queue := sortByPriority (st.task_queue ++ [task])
    metrics_total_tasks := st.metrics_total_tasks + 1 }

/-- `submit_task`: append to the queue, bump the submission metric, re-sort by
priority and immediately attempt to schedule the new task. -/
def submitTask (now : Nat) (task : HiveTask) (st : HiveState) :
    Except String HiveState :=
  scheduleTask now task (enqueueTask task st)

/-- First queue element carrying the given task id. -/
def findTaskInQueue (tid : String) : List HiveTask → Option HiveTask
  | [] => none
  | t :: ts => if t.task_id = tid then some t else findTaskInQueue tid ts

/-- `task_queue.remove(task)`: drop the first element equal to `t`. -/
def removeFirstTask (t : HiveTask) : List HiveTask → List HiveTask
  | [] => []
  | u :: us => if u = t then us else u :: removeFirstTask t us

/-- A `task_dependencies` entry whose dependencies are all completed and whose
task is still findable in the queue (the promotion condition of
`_task_scheduler`). -/
def depReady (st : HiveState) (p : String × List String) : Bool :=
  p.2.all (fun d => d ∈ completedIds st) && (findTaskInQueue p.1 st.task_queue).isSome

/-- The waiting tasks promoted by one `_task_scheduler` iteration: those with
a dependency entry whose dependencies are all completed and that are still
findable in the queue. -/
def readyList (st : HiveState) : List HiveTask :=
  (st.task_dependencies.filter (depReady st)).filterMap
    (fun p => findTaskInQueue p.1 st.task_queue)

/-- Scheduling of one promoted task inside `_task_scheduler`: remove it from
the queue, then run `_schedule_task`. -/
def tickStep (now : Nat) (s : HiveState) (t : HiveTask) : Except String HiveState :=
  scheduleTask now t { s with task_queue := removeFirstTask t s.task_queue }

/-- The for-loop of `_task_scheduler` over the promoted tasks: remove each
from the queue and schedule it, propagating any exception. -/
def runSchedule (now : Nat) : HiveState → List HiveTask → Except String HiveState
  | s, [] => Except.ok s
  | s, t :: ts =>
    match tickStep now s t with
    | Except.error e => Except.error e
    | Except.ok s1 => runSchedule now s1 ts

/-- One iteration of the `_task_scheduler` loop body: collect the waiting
tasks whose dependency sets are satisfied, delete their dependency entries,
then remove each from the queue and schedule it. -/
def schedulerTick (now : Nat) (st : HiveState) : Except String HiveState :=
  runSchedule now
    { st with
      task_dependencies := st.task_dependencies.filter (fun p => !(depReady st p)) }
    (readyList st)

/-- `unregister_agent`: idempotent removal of the agent and its connection,
requeueing every active task it held with assignment and start time cleared
(`_reassign_agent_tasks`). -/
def unregisterAgent (aid : String) (st : HiveState) : HiveState :=
  if dictContains aid st.agents then
    let moved := st.active_tasks.filter (fun p => p.2.assigned_to = some aid)
    { st with
      agents := dictErase aid st.agents
      agent_connections := st.agent_connections.filter (fun c => c ≠ aid)
      metrics_active_agents := st.metrics_active_agents - 1
      task_queue := st.task_queue ++
        moved.map (fun p => { p.2 with assigned_to := none, started_at := none })
      active_tasks := st.active_tasks.filter (fun p => !(p.2.assigned_to = some aid)) }
  else st

/-- One iteration of the `_health_monitor` loop body: unregister every agent
whose heartbeat `timedelta.seconds` exceeds 30. -/
def healthMonitorTick (now : Nat) (st : HiveState) : HiveState :=
  ((st.agents.filter (fun p =>
      decide (30 < pySeconds ((now : Int) - (p.2.last_heartbeat : Int))))).map Prod.fst).foldl
    (fun s aid => unregisterAgent aid s) st

/-- `register_agent`: unconditionally store the agent and its connection and
bump both agent metrics (the welcome message does not change state). -/
def registerAgent (info : AgentInfo) (st : HiveState) : HiveState :=
  { st with
    agents := dictInsert info.agent_id info st.agents
    agent_connections :=
      if st.agent_connections.contains info.agent_id then st.agent_connections
      else st.agent_connections ++ [info.agent_id]
    metrics_total_agents := st.metrics_total_agents + 1
    metrics_active_agents := st.metrics_active_agents + 1 }

/-- `_handle_heartbeat`: refresh the sender's heartbeat if registered. -/
def handleHeartbeat (now : Nat) (aid : String) (st : HiveState) : HiveState :=
  if dictContains aid st.agents then
    { st with agents := dictUpdate aid (fun a => { a with last_heartbeat := now }) st.agents }
  else st

/-- `_handle_status_update`: overwrite the sender's status if registered. -/
def handleStatusUpdate (aid status : String) (st : HiveState) : HiveState :=
  if dictContains aid st.agents then
    { st with agents := dictUpdate aid (fun a => { a with status := status }) st.agents }
  else st

/-- Agent-metrics update of `_handle_task_complete`: if the task's assignee is
registered, decrement its load and fold the task duration into its running
average (`task_time` is completion minus start; a missing start time, which
would raise in Python, is read as `now`). -/
def completeAgentUpdate (now : Nat) (task : HiveTask) (st : HiveState) : HiveState :=
  match task.assigned_to with
  | some aid =>
    if dictContains aid st.agents then
      { st with agents := dictUpdate aid (fun a =>
          { a with
            current_load := a.current_load - 1
            average_task_time :=
              (a.average_task_time * (st.metrics_completed_tasks : ℚ) +
                  ((((now : Int) - ((task.started_at.getD now : Nat) : Int)) : Int) : ℚ)) /
                ((st.metrics_completed_tasks : ℚ) + 1) }) st.agents }
    else st
  | none => st

/-- `_handle_task_complete`: stamp the task, decrement the assignee's load and
fold the duration into its running average, move the task to the completed
list and bump the completed metric. -/
def handleTaskComplete (now : Nat) (tid result : String) (st : HiveState) : HiveState :=
  match dictLookup tid st.active_tasks with
  | none => st
  | some task =>
    { completeAgentUpdate now task st with
      completed_tasks := (completeAgentUpdate now task st).completed_tasks ++
        [{ task with completed_at := some now, result := some result }]
      active_tasks := dictErase tid (completeAgentUpdate now task st).active_tasks
      metrics_completed_tasks := (completeAgentUpdate now task st).metrics_completed_tasks + 1 }

/-- Agent-metrics update of `_handle_task_failed`: if the task's assignee is
registered, decrement its load and decay its success rate by 0.95. -/
def failedAgentUpdate (task : HiveTask) (st : HiveState) : HiveState :=
  match task.assigned_to with
  | some aid =>
    if dictContains aid st.agents then
      { st with agents := dictUpdate aid (fun a =>
          { a with
            current_load := a.current_load - 1
            success_rate := a.success_rate * (19 / 20) }) st.agents }
    else st
  | none => st

/-- Requeue outcome of `_handle_task_failed` for urgent tasks (priority < 3):
the task re-enters the queue with error recorded and assignment and start
cleared, and leaves the active map. -/
def failedRequeue (tid err : String) (task : HiveTask) (st : HiveState) : HiveState :=
  { failedAgentUpdate task st with
    task_queue := (failedAgentUpdate task st).task_queue ++
      [{ task with error := some err, assigned_to := none, started_at := none }]
    active_tasks := dictErase tid (failedAgentUpdate task st).active_tasks }

/-- Terminal outcome of `_handle_task_failed` for non-urgent tasks: the task
moves to the terminal completed list with its error recorded and the
failed-task metric grows. -/
def failedTerminal (tid err : String) (task : HiveTask) (st : HiveState) : HiveState :=
  { failedAgentUpdate task st with
    completed_tasks := (failedAgentUpdate task st).completed_tasks ++
      [{ task with error := some err }]
    active_tasks := dictErase tid (failedAgentUpdate task st).active_tasks
    metrics_failed_tasks := (failedAgentUpdate task st).metrics_failed_tasks + 1 }

/-- `_handle_task_failed`: record the error and decay the assignee; tasks with
priority strictly under 3 are requeued with assignment cleared, all others go
to the terminal list and bump the failed metric. -/
def handleTaskFailed (tid err : String) (st : HiveState) : HiveState :=
  match dictLookup tid st.active_tasks with
  | none => st
  | some task =>
    if task.priority < 3 then failedRequeue tid err task st
    else failedTerminal tid err task st

/-- Summand list of the utilization average in `_calculate_hive_efficiency`. -/
def utilizationSum (agents : List (String × AgentInfo)) : ℚ :=
  (agents.map (fun p => (p.2.current_load : ℚ) / (p.2.max_load : ℚ))).sum

/-- `_calculate_hive_efficiency`: when at least one task was submitted, set
`hive_efficiency` to `completion_rate * 0.6 + avg_utilization * 0.4`, the
utilization averaging `current_load / max_load` over the registry (0 when the
registry is empty). -/
def calculateHiveEfficiency (st : HiveState) : HiveState :=
  if 0 < st.metrics_total_tasks then
    { st with
      metrics_hive_efficiency :=
        ((st.metrics_completed_tasks : ℚ) / (st.metrics_total_tasks : ℚ)) * (3 / 5) +
          (if st.agents ≠ [] then utilizationSum st.agents / (st.agents.length : ℚ) else 0) *
            (2 / 5) }
  else st

/-- The counts reported by `get_status`. -/
structure HiveStatus where
  agents : Nat
  active_tasks : Nat
  queued_tasks : Nat
  completed_tasks : Nat
deriving DecidableEq

/-- `get_status`: sizes of the registry and the three task partitions. -/
def getStatus (st : HiveState) : HiveStatus :=
  { agents := st.agents.length
    active_tasks := st.active_tasks.length
    queued_tasks := st.task_queue.length
    completed_tasks := st.completed_tasks.length }

/-- Task priority levels (`Priority` enum of `src/core/agent.py`). -/
inductive Priority where
  | CRITICAL
  | HIGH
  | MEDIUM
  | LOW
  | BACKGROUND
deriving DecidableEq

/-- Numeric values of the `Priority` enum. -/
def Priority.value : Priority → Int
  | .CRITICAL => 1
  | .HIGH => 2
  | .MEDIUM => 3
  | .LOW => 4
  | .BACKGROUND => 5

/-- Unwrap an exception-free run, with a fallback state for the error case. -/
def okOr (d : HiveState) : Except String HiveState → HiveState
  | Except.ok s => s
  | Except.error _ => d

/-- Number of active tasks currently assigned to the given agent id. -/
def countAssigned (active : List (String × HiveTask)) (aid : String) : Nat :=
  active.countP (fun p => p.2.assigned_to = some aid)

/-- Left-hand side of the task-accounting inequality: every terminal metric
increment, active entry and dependency entry is backed by a submission. -/
def acctLHS (st : HiveState) : Nat :=
  st.metrics_completed_tasks + st.metrics_failed_tasks +
    st.active_tasks.length + st.task_dependencies.length

/-- The registry-side invariant clauses: distinct keys, each agent's load at
least its count of assigned active tasks and at most its positive capacity. -/
def AgentsOk (st : HiveState) : Prop :=
  (st.agents.map Prod.fst).Nodup ∧
  (∀ p ∈ st.agents, (countAssigned st.active_tasks p.1 : Int) ≤ p.2.current_load) ∧
  (∀ p ∈ st.agents, p.2.current_load ≤ p.2.max_load) ∧
  (∀ p ∈ st.agents, (0 : Int) < p.2.max_load)

/-- Coordinator states reachable by the message handlers and periodic loops.
Registration is constrained to sane `AgentInfo` payloads (load covering the
tasks the id already holds, load within a positive capacity) and the two
scheduling entry points are taken under a non-auction strategy (the auction
path raises, see C8). -/
inductive Reach : HiveState → Prop where
  | init (strategy : TaskDistributionStrategy) : Reach (initState strategy)
  | register {st : HiveState} (info : AgentInfo) :
      Reach st →
      (countAssigned st.active_tasks info.agent_id : Int) ≤ info.current_load →
      info.current_load ≤ info.max_load →
      0 < info.max_load →
      Reach (registerAgent info st)
  | unregister {st : HiveState} (aid : String) :
      Reach st → Reach (unregisterAgent aid st)
  | heartbeat {st : HiveState} (now : Nat) (aid : String) :
      Reach st → Reach (handleHeartbeat now aid st)
  | statusUpdate {st : HiveState} (aid status : String) :
      Reach st → Reach (handleStatusUpdate aid status st)
  | submit {st st' : HiveState} (now : Nat) (task : HiveTask) :
      Reach st →
      st.distribution_strategy ≠ TaskDistributionStrategy.AUCTION_BASED →
      submitTask now task st = Except.ok st' →
      Reach st'
  | tick {st st' : HiveState} (now : Nat) :
      Reach st →
      st.distribution_strategy ≠ TaskDistributionStrategy.AUCTION_BASED →
      schedulerTick now st = Except.ok st' →
      Reach st'
  | health {st : HiveState} (now : Nat) :
      Reach st → Reach (healthMonitorTick now st)
  | taskComplete {st : HiveState} (now : Nat) (tid result : String) :
      Reach st → Reach (handleTaskComplete now tid result st)
  | taskFailed {st : HiveState} (tid err : String) :
      Reach st → Reach (handleTaskFailed tid err st)
  | metricsTick {st : HiveState} :
      Reach st → Reach (calculateHiveEfficiency st)

/-- Inductive invariant carried along `Reach`: registry keys are distinct,
every agent's load covers its assigned active tasks and stays within its
positive capacity, terminal metrics plus live entries are backed by
submissions, and the stored efficiency is within `[0, 1]`. -/
structure Inv (st : HiveState) : Prop where
  agents_nodup : (st.agents.map Prod.fst).Nodup
  load_lb : ∀ p ∈ st.agents, (countAssigned st.active_tasks p.1 : Int) ≤ p.2.current_load
  load_ub : ∀ p ∈ st.agents, p.2.current_load ≤ p.2.max_load
  max_pos : ∀ p ∈ st.agents, (0 : Int) < p.2.max_load
  acct : acctLHS st ≤ st.metrics_total_tasks
  eff_lb : 0 ≤ st.metrics_hive_efficiency
  eff_ub : st.metrics_hive_efficiency ≤ 1

/-- The submission path assigns the task: `submit_task` returns normally and
the task is in the active map, stamped and assigned to one of the agents that
were available at submission time. -/
def submitAssigns (now : Nat) (task : HiveTask) (st : HiveState) : Prop :=
  ∃ st' aid, submitTask now task st = Except.ok st' ∧
    aid ∈ getAvailableAgents now task.required_capabilities st ∧
    dictLookup task.task_id st'.active_tasks = some (stampTask now aid task)

/-- After a successful submission the task sits in the pending queue and in
the active map at once, and `get_status` counts it in both partitions. -/
def dualMembership (now : Nat) (task : HiveTask) (st : HiveState) : Prop :=
  ∃ st', submitTask now task st = Except.ok st' ∧
    task ∈ st'.task_queue ∧
    (dictLookup task.task_id st'.active_tasks).isSome = true ∧
    1 ≤ (getStatus st').queued_tasks ∧ 1 ≤ (getStatus st').active_tasks

/-- Concrete agent for the C1 scenario. -/
def c1Agent : AgentInfo := { agent_id := "a1", capabilities := ["web"] }

/-- Concrete dependency-free task for the C1 scenario. -/
def c1Task : HiveTask := { task_id := "t1" }

/-- C1 scenario: submit with an empty registry (no eligible agent). -/
def c1St1 : HiveState :=
  okOr (initState .ROUND_ROBIN) (submitTask 0 c1Task (initState .ROUND_ROBIN))

/-- C1 scenario: an eligible agent then registers. -/
def c1St2 : HiveState := registerAgent c1Agent c1St1

/-- C1 scenario: the next scheduler tick runs. -/
def c1St3 : HiveState := okOr c1St2 (schedulerTick 0 c1St2)

/-- Concrete agent for the C2 scenario (dataclass defaults: load 0 of 5). -/
def c2Info : AgentInfo := { agent_id := "a1" }

/-- Concrete task for the C2 scenario. -/
def c2Task : HiveTask := { task_id := "t1" }

/-- C2 scenario: register, submit (auto-assigned, load 1). -/
def c2St2 : HiveState :=
  okOr (registerAgent c2Info (initState .ROUND_ROBIN))
    (submitTask 0 c2Task (registerAgent c2Info (initState .ROUND_ROBIN)))

/-- C2 scenario: duplicate registration overwrites the entry, resetting the
stored load to 0 while the task is still active. -/
def c2St3 : HiveState := registerAgent c2Info c2St2

/-- C2 scenario: the completion handler then decrements the load to -1. -/
def c2St4 : HiveState := handleTaskComplete 0 "t1" "done" c2St3

/-- Concrete agent for the C3 scenario. -/
def c3Agent : AgentInfo := { agent_id := "a1", capabilities := ["c"] }

/-- C3 scenario dependency task (priority 3: terminal on failure). -/
def c3TaskA : HiveTask := { task_id := "A" }

/-- C3 scenario dependent task, waiting on task A. -/
def c3TaskB : HiveTask := { task_id := "B", dependencies := ["A"] }

/-- C3 scenario: register the agent, submit A (assigned). -/
def c3St2 : HiveState :=
  okOr (registerAgent c3Agent (initState .ROUND_ROBIN))
    (submitTask 0 c3TaskA (registerAgent c3Agent (initState .ROUND_ROBIN)))

/-- C3 scenario: B is submitted and parked as waiting on A. -/
def c3St3 : HiveState := okOr c3St2 (submitTask 0 c3TaskB c3St2)

/-- C3 scenario: A is reported failed and, at priority 3, ends terminal. -/
def c3St4 : HiveState := handleTaskFailed "A" "boom" c3St3

/-- C3 scenario: the next scheduler tick promotes and assigns B. -/
def c3St5 : HiveState := okOr c3St4 (schedulerTick 0 c3St4)

/-- C3 witness state: a tick over the state where B still waits on the
incomplete dependency A. -/
def c3WSt : HiveState := okOr c3St3 (schedulerTick 0 c3St3)

/-- Concrete agents for the C4 scenario. -/
def c4A : AgentInfo := { agent_id := "a1" }

/-- Second concrete agent for the C4 scenario. -/
def c4B : AgentInfo := { agent_id := "a2" }

/-- C4 scenario: a registry already holding one agent. -/
def c4St1 : HiveState := registerAgent c4A (initState .ROUND_ROBIN)

/-- Active (assigned) critical-priority task for the C5 witness. -/
def c5Active : HiveTask :=
  { task_id := "t1", priority := 1, assigned_to := some "a1", started_at := some 0 }

/-- C5 witness state: one active critical task. -/
def c5St : HiveState :=
  { initState .ROUND_ROBIN with active_tasks := [("t1", c5Active)] }

/-- C6 scenario: an agent registered with a load far above its capacity (the
registry accepts any `AgentInfo` payload). -/
def c6Bad : AgentInfo := { agent_id := "bad", current_load := 20, max_load := 5 }

/-- C6 scenario: a normal agent that will execute the task. -/
def c6Good : AgentInfo := { agent_id := "g" }

/-- C6 scenario task. -/
def c6Task : HiveTask := { task_id := "t1" }

/-- C6 scenario: both agents registered. -/
def c6St2 : HiveState := registerAgent c6Good (registerAgent c6Bad (initState .ROUND_ROBIN))

/-- C6 scenario: the task is submitted (assigned to the normal agent) and
completed, making the completion rate 1. -/
def c6St4 : HiveState :=
  handleTaskComplete 0 "t1" "ok" (okOr c6St2 (submitTask 0 c6Task c6St2))

/-- C6 scenario: the metrics pass then computes the efficiency. -/
def c6St5 : HiveState := calculateHiveEfficiency c6St4

/-- C7 scenario: an agent whose last heartbeat is one day plus 30 seconds in
the past, holding one active task. -/
def c7Agent : AgentInfo := { agent_id := "a1", last_heartbeat := 0, current_load := 1 }

/-- C7 scenario: the in-flight task held by the stale agent. -/
def c7Active : HiveTask :=
  { task_id := "t3", assigned_to := some "a1", started_at := some 0 }

/-- C7 scenario state. -/
def c7St : HiveState :=
  { initState .ROUND_ROBIN with
    agents := [("a1", c7Agent)]
    agent_connections := ["a1"]
    active_tasks := [("t3", c7Active)] }

/-- C8 scenario: one registered (hence connected) eligible agent under the
auction strategy. -/
def c8Agent : AgentInfo := { agent_id := "a1", capabilities := ["cap"] }

/-- C8 scenario task requiring the agent's capability. -/
def c8Task : HiveTask := { task_id := "t1", required_capabilities := ["cap"] }

/-- C8 scenario state (auction strategy). -/
def c8St : HiveState := registerAgent c8Agent (initState .AUCTION_BASED)

/-- C9 witness agent. -/
def c9Agent : AgentInfo := { agent_id := "a1" }

/-- C9 witness task. -/
def c9Task : HiveTask := { task_id := "t9" }

/-- C9 witness state. -/
def c9St : HiveState := registerAgent c9Agent (initState .LOAD_BALANCED)

/-- C10 witness: two eligible agents under the round-robin strategy. -/
def c10St : HiveState :=
  registerAgent { agent_id := "a2" } (registerAgent { agent_id := "a1" } (initState .ROUND_ROBIN))

/-- C10 witness task. -/
def c10Task : HiveTask := { task_id := "t10" }

/-- C1 witness task (dependency-free). -/
def c1WTask : HiveTask := { task_id := "w1" }

/-- C1 witness state: one eligible agent. -/
def c1WSt : HiveState := registerAgent c1Agent (initState .ROUND_ROBIN)

section DictLemmas

variable {β : Type}

theorem mem_dictInsert {k : String} {v : β} {l : List (String × β)} {p : String × β}
    (h : p ∈ dictInsert k v l) : p = (k, v) ∨ p ∈ l := by
  induction l with
  | nil => simpa [dictInsert] using h
  | cons q qs ih =>
    by_cases hq : q.1 = k
    · simp only [dictInsert, if_pos hq] at h
      rcases List.mem_cons.mp h with h | h
      · exact Or.inl h
      · exact Or.inr (List.mem_cons_of_mem _ h)
    · simp only [dictInsert, if_neg hq] at h
      rcases List.mem_cons.mp h with h | h
      · exact Or.inr (h ▸ List.mem_cons_self _ _)
      · rcases ih h with h | h
        · exact Or.inl h
        · exact Or.inr (List.mem_cons_of_mem _ h)

theorem mem_dictInsert_of_ne {k : String} {v : β} {l : List (String × β)} {p : String × β}
    (hp : p ∈ l) (hne : p.1 ≠ k) : p ∈ dictInsert k v l := by
  induction l with
  | nil => cases hp
  | cons q qs ih =>
    by_cases hq : q.1 = k
    · simp only [dictInsert, if_pos hq]
      rcases List.mem_cons.mp hp with h | h
      · exact absurd (by rw [h]; exact hq) hne
      · exact List.mem_cons_of_mem _ h
    · simp only [dictInsert, if_neg hq]
      rcases List.mem_cons.mp hp with h | h
      · exact h ▸ List.mem_cons_self _ _
      · exact List.mem_cons_of_mem _ (ih h)

theorem mem_keys_dictInsert {k : String} {v : β} {l : List (String × β)} {x : String} :
    x ∈ (dictInsert k v l).map Prod.fst ↔ x = k ∨ x ∈ l.map Prod.fst := by
  induction l with
  | nil => simp [dictInsert]
  | cons q qs ih =>
    by_cases hq : q.1 = k
    · simp only [dictInsert]
      rw [if_pos hq]
      simp only [List.map_cons, List.mem_cons, hq]
      tauto
    · simp only [dictInsert]
      rw [if_neg hq]
      simp only [List.map_cons, List.mem_cons, ih]
      tauto

theorem nodup_keys_dictInsert {k : String} {v : β} {l : List (String × β)}
    (h : (l.map Prod.fst).Nodup) : ((dictInsert k v l).map Prod.fst).Nodup := by
  induction l with
  | nil => simp [dictInsert]
  | cons q qs ih =>
    rw [List.map_cons, List.nodup_cons] at h
    by_cases hq : q.1 = k
    · simp only [dictInsert, if_pos hq, List.map_cons, List.nodup_cons]
      exact ⟨hq ▸ h.1, h.2⟩
    · simp only [dictInsert, if_neg hq, List.map_cons, List.nodup_cons]
      refine ⟨fun hmem => ?_, ih h.2⟩
      rcases mem_keys_dictInsert.mp hmem with h' | h'
      · exact hq h'
      · exact h.1 h'

theorem keys_dictUpdate {k : String} {f : β → β} (l : List (String × β)) :
    (dictUpdate k f l).map Prod.fst = l.map Prod.fst := by
  induction l with
  | nil => rfl
  | cons q qs ih =>
    by_cases hq : q.1 = k
    · simp [dictUpdate, if_pos hq]
    · simp [dictUpdate, if_neg hq, ih]

theorem mem_dictUpdate_nodup {k : String} {f : β → β} {l : List (String × β)} {p : String × β}
    (hnd : (l.map Prod.fst).Nodup) (h : p ∈ dictUpdate k f l) :
    (p ∈ l ∧ p.1 ≠ k) ∨ ∃ q, q ∈ l ∧ q.1 = k ∧ p = (q.1, f q.2) := by
  induction l with
  | nil => cases h
  | cons q qs ih =>
    rw [List.map_cons, List.nodup_cons] at hnd
    by_cases hq : q.1 = k
    · simp only [dictUpdate, if_pos hq] at h
      rcases List.mem_cons.mp h with h | h
      · exact Or.inr ⟨q, List.mem_cons_self _ _, hq, h⟩
      · refine Or.inl ⟨List.mem_cons_of_mem _ h, fun hpk => ?_⟩
        exact hnd.1 (by rw [hq, ← hpk]; exact List.mem_map_of_mem Prod.fst h)
    · simp only [dictUpdate, if_neg hq] at h
      rcases List.mem_cons.mp h with h | h
      · exact Or.inl ⟨h ▸ List.mem_cons_self _ _, h ▸ hq⟩
      · rcases ih hnd.2 h with ⟨h1, h2⟩ | ⟨r, hr, hrk, hpr⟩
        · exact Or.inl ⟨List.mem_cons_of_mem _ h1, h2⟩
        · exact Or.inr ⟨r, List.mem_cons_of_mem _ hr, hrk, hpr⟩

theorem nodup_key_unique {l : List (String × β)} (hnd : (l.map Prod.fst).Nodup)
    {p q : String × β} (hp : p ∈ l) (hq : q ∈ l) (hk : p.1 = q.1) : p = q := by
  induction l with
  | nil => cases hp
  | cons r rs ih =>
    rw [List.map_cons, List.nodup_cons] at hnd
    rcases List.mem_cons.mp hp with hp' | hp' <;> rcases List.mem_cons.mp hq with hq' | hq'
    · rw [hp', hq']
    · exact absurd (by rw [← hp', hk]; exact List.mem_map_of_mem Prod.fst hq') hnd.1
    · exact absurd (by rw [← hq', ← hk]; exact List.mem_map_of_mem Prod.fst hp') hnd.1
    · exact ih hnd.2 hp' hq'

theorem dictLookup_mem {k : String} {l : List (String × β)} {v : β}
    (h : dictLookup k l = some v) : (k, v) ∈ l := by
  induction l with
  | nil => cases h
  | cons q qs ih =>
    obtain ⟨q1, q2⟩ := q
    by_cases hq : q1 = k
    · subst hq
      simp only [dictLookup] at h
      rw [if_pos trivial] at h
      injection h with h2
      subst h2
      exact List.mem_cons_self _ _
    · simp only [dictLookup] at h
      rw [if_neg hq] at h
      exact List.mem_cons_of_mem _ (ih h)

theorem dictLookup_dictInsert (k : String) (v : β) (l : List (String × β)) :
    dictLookup k (dictInsert k v l) = some v := by
  induction l with
  | nil => simp [dictInsert, dictLookup]
  | cons q qs ih =>
    by_cases hq : q.1 = k
    · simp only [dictInsert]
      rw [if_pos hq]
      simp only [dictLookup]
      rw [if_pos trivial]
    · simp only [dictInsert]
      rw [if_neg hq]
      simp only [dictLookup]
      rw [if_neg hq]
      exact ih

theorem dictLookup_dictInsert_ne {k' k : String} (h : k' ≠ k) (v : β)
    (l : List (String × β)) : dictLookup k' (dictInsert k v l) = dictLookup k' l := by
  induction l with
  | nil =>
    simp only [dictInsert, dictLookup]
    rw [if_neg (Ne.symm h)]
  | cons q qs ih =>
    by_cases hq : q.1 = k
    · simp only [dictInsert]
      rw [if_pos hq]
      simp only [dictLookup]
      rw [if_neg (Ne.symm h), if_neg (by rw [hq]; exact Ne.symm h)]
    · simp only [dictInsert]
      rw [if_neg hq]
      simp only [dictLookup]
      by_cases hq' : q.1 = k'
      · rw [if_pos hq', if_pos hq']
      · rw [if_neg hq', if_neg hq']
        exact ih

theorem dictLookup_dictErase_self (k : String) (l : List (String × β)) :
    dictLookup k (dictErase k l) = none := by
  induction l with
  | nil => rfl
  | cons q qs ih =>
    by_cases hq : q.1 = k
    · simp only [dictErase, List.filter_cons] at ih ⊢
      rw [if_neg (by simpa using hq)]
      exact ih
    · simp only [dictErase, List.filter_cons] at ih ⊢
      rw [if_pos (by simpa using hq)]
      simp only [dictLookup]
      rw [if_neg hq]
      exact ih

end DictLemmas

section ListLemmas

theorem countAssigned_nil (aid : String) : countAssigned [] aid = 0 := rfl

theorem countAssigned_cons (p : String × HiveTask) (l : List (String × HiveTask))
    (aid : String) :
    countAssigned (p :: l) aid =
      countAssigned l aid + if p.2.assigned_to = some aid then 1 else 0 := by
  by_cases hp : p.2.assigned_to = some aid
  · simp [countAssigned, List.countP_cons, hp]
  · simp [countAssigned, List.countP_cons, hp]

theorem countAssigned_dictInsert_le (k : String) (v : HiveTask)
    (l : List (String × HiveTask)) (aid : String) :
    countAssigned (dictInsert k v l) aid ≤ countAssigned l aid + 1 := by
  induction l with
  | nil =>
    rw [show dictInsert k v ([] : List (String × HiveTask)) = [(k, v)] from rfl]
    rw [countAssigned_cons]
    split <;> omega
  | cons q qs ih =>
    by_cases hq : q.1 = k
    · simp only [dictInsert]
      rw [if_pos hq, countAssigned_cons, countAssigned_cons]
      split <;> split <;> omega
    · simp only [dictInsert]
      rw [if_neg hq, countAssigned_cons, countAssigned_cons]
      split <;> omega

theorem countAssigned_dictInsert_other {v : HiveTask} {aid : String}
    (h : ¬ v.assigned_to = some aid) (k : String) (l : List (String × HiveTask)) :
    countAssigned (dictInsert k v l) aid ≤ countAssigned l aid := by
  induction l with
  | nil =>
    rw [show dictInsert k v ([] : List (String × HiveTask)) = [(k, v)] from rfl]
    rw [countAssigned_cons, if_neg h]
    omega
  | cons q qs ih =>
    by_cases hq : q.1 = k
    · simp only [dictInsert]
      rw [if_pos hq, countAssigned_cons, countAssigned_cons, if_neg h]
      split <;> omega
    · simp only [dictInsert]
      rw [if_neg hq, countAssigned_cons, countAssigned_cons]
      split <;> omega

theorem countAssigned_filter_le (q : String × HiveTask → Bool)
    (l : List (String × HiveTask)) (aid : String) :
    countAssigned (l.filter q) aid ≤ countAssigned l aid := by
  induction l with
  | nil => simp [countAssigned]
  | cons p ps ih =>
    rw [List.filter_cons]
    by_cases hp : q p = true
    · rw [if_pos hp, countAssigned_cons, countAssigned_cons]
      split <;> omega
    · rw [if_neg hp, countAssigned_cons]
      split <;> omega

theorem countAssigned_filter_not_assigned (aid : String) (l : List (String × HiveTask)) :
    countAssigned (l.filter (fun p => !(p.2.assigned_to = some aid))) aid = 0 := by
  induction l with
  | nil => rfl
  | cons p ps ih =>
    rw [List.filter_cons]
    by_cases hp : p.2.assigned_to = some aid
    · rw [if_neg (by simp [hp])]
      exact ih
    · rw [if_pos (by simp [hp]), countAssigned_cons, if_neg hp, ih]

theorem countAssigned_dictErase_lt {tid : String} {l : List (String × HiveTask)}
    {task : HiveTask} {aid : String} (h : dictLookup tid l = some task)
    (ha : task.assigned_to = some aid) :
    countAssigned (dictErase tid l) aid < countAssigned l aid := by
  induction l with
  | nil => cases h
  | cons p ps ih =>
    by_cases hp : p.1 = tid
    · simp only [dictLookup] at h
      rw [if_pos hp] at h
      injection h with h2
      subst h2
      simp only [dictErase, List.filter_cons]
      rw [if_neg (by simp [hp])]
      rw [countAssigned_cons, if_pos ha]
      calc countAssigned (List.filter (fun p => decide (p.1 ≠ tid)) ps) aid
        ≤ countAssigned ps aid := countAssigned_filter_le _ _ _
      _ < countAssigned ps aid + 1 := Nat.lt_succ_self _
    · simp only [dictLookup] at h
      rw [if_neg hp] at h
      simp only [dictErase, List.filter_cons] at ih ⊢
      rw [if_pos (by simp [hp]), countAssigned_cons, countAssigned_cons]
      have hih := ih h
      split <;> omega

theorem length_dictInsert_le {β : Type} (k : String) (v : β) (l : List (String × β)) :
    (dictInsert k v l).length ≤ l.length + 1 := by
  induction l with
  | nil => simp [dictInsert]
  | cons q qs ih =>
    by_cases hq : q.1 = k
    · simp only [dictInsert]
      rw [if_pos hq]
      simp
    · simp only [dictInsert]
      rw [if_neg hq]
      simp only [List.length_cons]
      omega

theorem length_dictErase_lt {β : Type} {tid : String} {l : List (String × β)} {v : β}
    (h : dictLookup tid l = some v) : (dictErase tid l).length < l.length := by
  induction l with
  | nil => cases h
  | cons p ps ih =>
    by_cases hp : p.1 = tid
    · simp only [dictErase, List.filter_cons]
      rw [if_neg (by simp [hp])]
      exact Nat.lt_succ_of_le (List.length_filter_le _ _)
    · simp only [dictLookup] at h
      rw [if_neg hp] at h
      simp only [dictErase, List.filter_cons] at ih ⊢
      rw [if_pos (by simp [hp])]
      simp only [List.length_cons]
      exact Nat.succ_lt_succ (ih h)

theorem mem_sortInsertTask {x t : HiveTask} {l : List HiveTask} :
    x ∈ sortInsertTask t l ↔ x = t ∨ x ∈ l := by
  induction l with
  | nil => simp [sortInsertTask]
  | cons u us ih =>
    by_cases hu : u.priority < t.priority
    · simp only [sortInsertTask]
      rw [if_pos hu]
      simp only [List.mem_cons, ih]
      tauto
    · simp only [sortInsertTask]
      rw [if_neg hu]
      simp only [List.mem_cons]

theorem mem_sortByPriority {x : HiveTask} {l : List HiveTask} :
    x ∈ sortByPriority l ↔ x ∈ l := by
  induction l with
  | nil => simp [sortByPriority]
  | cons t ts ih =>
    simp only [sortByPriority, mem_sortInsertTask, List.mem_cons, ih]

theorem mem_of_mem_removeFirstTask {x t : HiveTask} {l : List HiveTask}
    (h : x ∈ removeFirstTask t l) : x ∈ l := by
  induction l with
  | nil => simp only [removeFirstTask] at h; cases h
  | cons u us ih =>
    by_cases hu : u = t
    · simp only [removeFirstTask] at h
      rw [if_pos hu] at h
      exact List.mem_cons_of_mem _ h
    · simp only [removeFirstTask] at h
      rw [if_neg hu] at h
      rcases List.mem_cons.mp h with h | h
      · exact h ▸ List.mem_cons_self _ _
      · exact List.mem_cons_of_mem _ (ih h)

theorem mem_removeFirstTask_of_ne {x t : HiveTask} {l : List HiveTask}
    (hx : x ∈ l) (hne : x ≠ t) : x ∈ removeFirstTask t l := by
  induction l with
  | nil => cases hx
  | cons u us ih =>
    by_cases hu : u = t
    · simp only [removeFirstTask]
      rw [if_pos hu]
      rcases List.mem_cons.mp hx with h | h
      · exact absurd (h.trans hu) hne
      · exact h
    · simp only [removeFirstTask]
      rw [if_neg hu]
      rcases List.mem_cons.mp hx with h | h
      · exact h ▸ List.mem_cons_self _ _
      · exact List.mem_cons_of_mem _ (ih h)

theorem foldl_pick_mem {f : String → String → String}
    (hf : ∀ x y, f x y = x ∨ f x y = y) (l : List String) :
    ∀ a : String, l.foldl f a = a ∨ l.foldl f a ∈ l := by
  induction l with
  | nil => exact fun a => Or.inl rfl
  | cons b bs ih =>
    intro a
    rw [List.foldl_cons]
    rcases ih (f a b) with h | h
    · rcases hf a b with h' | h'
      · exact Or.inl (h.trans h')
      · rw [h, h']
        exact Or.inr (List.mem_cons_self _ _)
    · exact Or.inr (List.mem_cons_of_mem _ h)

theorem pickFirstMax_mem (score : String → ℚ) (a : String) (rest : List String) :
    pickFirstMax score a rest ∈ a :: rest := by
  have hf : ∀ x y : String,
      (if score x < score y then y else x) = x ∨ (if score x < score y then y else x) = y := by
    intro x y
    split
    · exact Or.inr rfl
    · exact Or.inl rfl
  rcases foldl_pick_mem hf rest a with h | h
  · rw [pickFirstMax, h]
    exact List.mem_cons_self _ _
  · exact List.mem_cons_of_mem _ h

theorem pickFirstMin_mem (score : String → ℚ) (a : String) (rest : List String) :
    pickFirstMin score a rest ∈ a :: rest := by
  have hf : ∀ x y : String,
      (if score y < score x then y else x) = x ∨ (if score y < score x then y else x) = y := by
    intro x y
    split
    · exact Or.inr rfl
    · exact Or.inl rfl
  rcases foldl_pick_mem hf rest a with h | h
  · rw [pickFirstMin, h]
    exact List.mem_cons_self _ _
  · exact List.mem_cons_of_mem _ h

theorem utilizationSum_nonneg {l : List (String × AgentInfo)}
    (h : ∀ p ∈ l, 0 ≤ p.2.current_load ∧ (0 : Int) < p.2.max_load) :
    0 ≤ utilizationSum l := by
  induction l with
  | nil => simp [utilizationSum]
  | cons p ps ih =>
    simp only [utilizationSum, List.map_cons, List.sum_cons]
    have hp := h p (List.mem_cons_self _ _)
    have h1 : (0 : ℚ) ≤ (p.2.current_load : ℚ) / (p.2.max_load : ℚ) :=
      div_nonneg (by exact_mod_cast hp.1) (by exact_mod_cast le_of_lt hp.2)
    have h2 := ih (fun q hq => h q (List.mem_cons_of_mem _ hq))
    simp only [utilizationSum] at h2
    linarith

theorem utilizationSum_le_length {l : List (String × AgentInfo)}
    (h : ∀ p ∈ l, p.2.current_load ≤ p.2.max_load ∧ (0 : Int) < p.2.max_load) :
    utilizationSum l ≤ (l.length : ℚ) := by
  induction l with
  | nil => simp [utilizationSum]
  | cons p ps ih =>
    simp only [utilizationSum, List.map_cons, List.sum_cons, List.length_cons]
    have hp := h p (List.mem_cons_self _ _)
    have h1 : (p.2.current_load : ℚ) / (p.2.max_load : ℚ) ≤ 1 := by
      rw [div_le_one (by exact_mod_cast hp.2)]
      exact_mod_cast hp.1
    have h2 := ih (fun q hq => h q (List.mem_cons_of_mem _ hq))
    simp only [utilizationSum] at h2
    push_cast
    linarith

theorem length_filter_split {α : Type} (p : α → Bool) (l : List α) :
    l.length = (l.filter p).length + (l.filter (fun a => !(p a))).length := by
  induction l with
  | nil => rfl
  | cons a as ih =>
    rw [List.filter_cons, List.filter_cons]
    by_cases ha : p a = true
    · rw [if_pos ha, if_neg (by simp [ha])]
      simp only [List.length_cons]
      omega
    · rw [if_neg ha, if_pos (by simp [ha])]
      simp only [List.length_cons]
      omega

theorem filterMap_length_le {α γ : Type} (f : α → Option γ) (l : List α) :
    (l.filterMap f).length ≤ l.length := by
  induction l with
  | nil => simp
  | cons a as ih =>
    rw [List.filterMap_cons]
    cases f a
    · simp only [List.length_cons]
      omega
    · simp only [List.length_cons]
      omega

theorem findTaskInQueue_id {tid : String} {q : List HiveTask} {t : HiveTask}
    (h : findTaskInQueue tid q = some t) : t.task_id = tid := by
  induction q with
  | nil => cases h
  | cons u us ih =>
    by_cases hu : u.task_id = tid
    · simp only [findTaskInQueue] at h
      rw [if_pos hu] at h
      injection h with h2
      subst h2
      exact hu
    · simp only [findTaskInQueue] at h
      rw [if_neg hu] at h
      exact ih h

theorem findTaskInQueue_mem {tid : String} {q : List HiveTask} {t : HiveTask}
    (h : findTaskInQueue tid q = some t) : t ∈ q := by
  induction q with
  | nil => cases h
  | cons u us ih =>
    by_cases hu : u.task_id = tid
    · simp only [findTaskInQueue] at h
      rw [if_pos hu] at h
      injection h with h2
      subst h2
      exact List.mem_cons_self _ _
    · simp only [findTaskInQueue] at h
      rw [if_neg hu] at h
      exact List.mem_cons_of_mem _ (ih h)

end ListLemmas

section OpLemmas

theorem mem_getAvailableAgents {now : Nat} {caps : List String} {st : HiveState}
    {aid : String} (h : aid ∈ getAvailableAgents now caps st) :
    ∃ e ∈ st.agents, e.1 = aid ∧ e.2.current_load < e.2.max_load := by
  unfold getAvailableAgents at h
  rcases List.mem_map.mp h with ⟨e, he, hfst⟩
  have hf := List.mem_filter.mp he
  refine ⟨e, hf.1, hfst, ?_⟩
  have h2 := hf.2
  simp only [Bool.and_eq_true, decide_eq_true_eq] at h2
  exact h2.1.2

theorem getAvailableAgents_congr {now : Nat} {caps : List String} {st1 st2 : HiveState}
    (h : st1.agents = st2.agents) :
    getAvailableAgents now caps st1 = getAvailableAgents now caps st2 := by
  unfold getAvailableAgents
  rw [h]

theorem selectAgent_ok_some_mem {now : Nat} {st : HiveState} {task : HiveTask} {aid : String}
    (h : selectAgentForTask now st task = Except.ok (some aid)) :
    aid ∈ getAvailableAgents now task.required_capabilities st := by
  unfold selectAgentForTask at h
  split at h
  · simp at h
  · rename_i a rest hav
    rw [hav]
    split at h
    · simp only [Except.ok.injEq, Option.some.injEq] at h
      rw [← h]
      exact pickFirstMax_mem _ _ _
    · simp only [Except.ok.injEq, Option.some.injEq] at h
      rw [← h]
      exact pickFirstMin_mem _ _ _
    · unfold runTaskAuction at h
      split at h
      · simp at h
      · simp at h
    · simp only [Except.ok.injEq, Option.some.injEq] at h
      rw [← h]
      exact pickFirstMax_mem _ _ _
    · simp only [Except.ok.injEq, Option.some.injEq] at h
      rw [← h]
      exact List.mem_cons_self _ _

theorem selectAgent_some_of_available {now : Nat} {st : HiveState} {task : HiveTask}
    {a : String} {rest : List String}
    (hstrat : st.distribution_strategy ≠ TaskDistributionStrategy.AUCTION_BASED)
    (hav : getAvailableAgents now task.required_capabilities st = a :: rest) :
    ∃ aid, selectAgentForTask now st task = Except.ok (some aid) := by
  unfold selectAgentForTask
  rw [hav]
  cases hs : st.distribution_strategy
  · exact ⟨a, rfl⟩
  · exact ⟨_, rfl⟩
  · exact ⟨_, rfl⟩
  · exact absurd hs hstrat
  · exact ⟨_, rfl⟩

theorem selectAgent_ok_of_ne_auction (now : Nat) {st : HiveState} (task : HiveTask)
    (hstrat : st.distribution_strategy ≠ TaskDistributionStrategy.AUCTION_BASED) :
    ∃ r, selectAgentForTask now st task = Except.ok r := by
  unfold selectAgentForTask
  cases hav : getAvailableAgents now task.required_capabilities st
  · exact ⟨none, rfl⟩
  · cases hs : st.distribution_strategy
    · exact ⟨_, rfl⟩
    · exact ⟨_, rfl⟩
    · exact ⟨_, rfl⟩
    · exact absurd hs hstrat
    · exact ⟨_, rfl⟩

theorem scheduleReady_cases {now : Nat} {task : HiveTask} {st st' : HiveState}
    (h : scheduleReady now task st = Except.ok st') :
    st' = st ∨ ∃ aid, aid ∈ getAvailableAgents now task.required_capabilities st ∧
      st' = assignTaskToAgent now task aid st := by
  unfold scheduleReady at h
  split at h
  · exact absurd h (by simp)
  · rename_i heq
    injection h with h
    exact Or.inl h.symm
  · rename_i aid heq
    injection h with h
    exact Or.inr ⟨aid, selectAgent_ok_some_mem heq, h.symm⟩

theorem scheduleReady_ok_of_ne_auction {now : Nat} {task : HiveTask} {st : HiveState}
    (hstrat : st.distribution_strategy ≠ TaskDistributionStrategy.AUCTION_BASED) :
    ∃ st', scheduleReady now task st = Except.ok st' := by
  unfold scheduleReady
  obtain ⟨r, hr⟩ := selectAgent_ok_of_ne_auction now task hstrat
  rw [hr]
  cases r
  · exact ⟨st, rfl⟩
  · exact ⟨_, rfl⟩

theorem scheduleTask_cases {now : Nat} {task : HiveTask} {st st' : HiveState}
    (h : scheduleTask now task st = Except.ok st') :
    st' = parkTask task st ∨
    st' = st ∨
    ∃ aid, aid ∈ getAvailableAgents now task.required_capabilities st ∧
      st' = assignTaskToAgent now task aid st := by
  unfold scheduleTask at h
  by_cases hdep : task.dependencies ≠ []
  · rw [if_pos hdep] at h
    by_cases hinc : task.dependencies.filter (fun d => d ∉ completedIds st) ≠ []
    · rw [if_pos hinc] at h
      injection h with h
      exact Or.inl h.symm
    · rw [if_neg hinc] at h
      exact Or.inr (scheduleReady_cases h)
  · rw [if_neg hdep] at h
    exact Or.inr (scheduleReady_cases h)

theorem scheduleTask_ok_of_ne_auction {now : Nat} {task : HiveTask} {st : HiveState}
    (hstrat : st.distribution_strategy ≠ TaskDistributionStrategy.AUCTION_BASED) :
    ∃ st', scheduleTask now task st = Except.ok st' := by
  unfold scheduleTask
  by_cases hdep : task.dependencies ≠ []
  · rw [if_pos hdep]
    by_cases hinc : task.dependencies.filter (fun d => d ∉ completedIds st) ≠ []
    · rw [if_pos hinc]
      exact ⟨_, rfl⟩
    · rw [if_neg hinc]
      exact scheduleReady_ok_of_ne_auction hstrat
  · rw [if_neg hdep]
    exact scheduleReady_ok_of_ne_auction hstrat

theorem agentsOk_assign {now : Nat} {task : HiveTask} {aid : String} {st : HiveState}
    (hok : AgentsOk st) (hmem : aid ∈ getAvailableAgents now task.required_capabilities st) :
    AgentsOk (assignTaskToAgent now task aid st) := by
  obtain ⟨hnd, hlb, hub, hmax⟩ := hok
  obtain ⟨e, he, hefst, helt⟩ := mem_getAvailableAgents hmem
  unfold assignTaskToAgent
  refine ⟨by simpa [keys_dictUpdate] using hnd, ?_, ?_, ?_⟩
  · intro p hp
    dsimp only
    rcases mem_dictUpdate_nodup hnd hp with ⟨hpl, hpk⟩ | ⟨q, hq, hqk, hpq⟩
    · have hne : ¬ (stampTask now aid task).assigned_to = some p.1 := by
        simp only [stampTask, Option.some.injEq]
        exact fun hc => hpk (hc ▸ rfl)
      have hcnt := countAssigned_dictInsert_other hne task.task_id st.active_tasks
      have hlbp := hlb p hpl
      omega
    · subst hpq
      have hcnt := countAssigned_dictInsert_le task.task_id
        (stampTask now aid task) st.active_tasks q.1
      have hlbq := hlb q hq
      simp only
      omega
  · intro p hp
    rcases mem_dictUpdate_nodup hnd hp with ⟨hpl, _⟩ | ⟨q, hq, hqk, hpq⟩
    · exact hub p hpl
    · subst hpq
      have hqe : q = e := nodup_key_unique hnd hq he (hqk.trans hefst.symm)
      subst hqe
      simp only
      omega
  · intro p hp
    rcases mem_dictUpdate_nodup hnd hp with ⟨hpl, _⟩ | ⟨q, hq, hqk, hpq⟩
    · exact hmax p hpl
    · subst hpq
      exact hmax q hq

end OpLemmas

section InvLemmas

theorem scheduleTask_ok_facts {now : Nat} {task : HiveTask} {st st' : HiveState}
    (h : scheduleTask now task st = Except.ok st') (hok : AgentsOk st) :
    AgentsOk st' ∧ acctLHS st' ≤ acctLHS st + 1 ∧
    st'.metrics_total_tasks = st.metrics_total_tasks ∧
    st'.metrics_completed_tasks = st.metrics_completed_tasks ∧
    st'.metrics_failed_tasks = st.metrics_failed_tasks ∧
    st'.metrics_hive_efficiency = st.metrics_hive_efficiency ∧
    st'.distribution_strategy = st.distribution_strategy := by
  rcases scheduleTask_cases h with h1 | h1 | ⟨aid, hmem, h1⟩ <;> subst h1
  · refine ⟨hok, ?_, rfl, rfl, rfl, rfl, rfl⟩
    have hlen := length_dictInsert_le task.task_id
      (task.dependencies.filter (fun d => d ∉ completedIds st)) st.task_dependencies
    unfold acctLHS parkTask
    dsimp only
    omega
  · exact ⟨hok, by omega, rfl, rfl, rfl, rfl, rfl⟩
  · refine ⟨agentsOk_assign hok hmem, ?_, rfl, rfl, rfl, rfl, rfl⟩
    have hlen := length_dictInsert_le task.task_id (stampTask now aid task) st.active_tasks
    unfold acctLHS assignTaskToAgent
    dsimp only
    omega

theorem runSchedule_facts {now : Nat} :
    ∀ {ts : List HiveTask} {s s' : HiveState},
      runSchedule now s ts = Except.ok s' → AgentsOk s →
      AgentsOk s' ∧ acctLHS s' ≤ acctLHS s + ts.length ∧
      s'.metrics_total_tasks = s.metrics_total_tasks ∧
      s'.metrics_completed_tasks = s.metrics_completed_tasks ∧
      s'.metrics_failed_tasks = s.metrics_failed_tasks ∧
      s'.metrics_hive_efficiency = s.metrics_hive_efficiency ∧
      s'.distribution_strategy = s.distribution_strategy := by
  intro ts
  induction ts with
  | nil =>
    intro s s' h hok
    injection h with h
    subst h
    exact ⟨hok, by omega, rfl, rfl, rfl, rfl, rfl⟩
  | cons t ts ih =>
    intro s s' h hok
    unfold runSchedule at h
    split at h
    · exact absurd h (by simp)
    · rename_i s1 hstep
      have hq : AgentsOk { s with task_queue := removeFirstTask t s.task_queue } := hok
      have hstep' : scheduleTask now t { s with task_queue := removeFirstTask t s.task_queue } =
          Except.ok s1 := hstep
      obtain ⟨hok1, hlhs1, htot1, hcomp1, hfail1, heff1, hstrat1⟩ :=
        scheduleTask_ok_facts hstep' hq
      obtain ⟨hok2, hlhs2, htot2, hcomp2, hfail2, heff2, hstrat2⟩ := ih h hok1
      refine ⟨hok2, ?_, htot2.trans htot1, hcomp2.trans hcomp1, hfail2.trans hfail1,
        heff2.trans heff1, hstrat2.trans hstrat1⟩
      have e1 : acctLHS { s with task_queue := removeFirstTask t s.task_queue } = acctLHS s := rfl
      simp only [List.length_cons]
      omega

theorem inv_submitTask {now : Nat} {task : HiveTask} {st st' : HiveState}
    (hinv : Inv st) (h : submitTask now task st = Except.ok st') : Inv st' := by
  unfold submitTask at h
  have hok : AgentsOk { st with
      task_queue := sortByPriority (st.task_queue ++ [task])
      metrics_total_tasks := st.metrics_total_tasks + 1 } :=
    ⟨hinv.agents_nodup, hinv.load_lb, hinv.load_ub, hinv.max_pos⟩
  obtain ⟨hok', hlhs, htot, hcomp, hfail, heff, hstrat⟩ := scheduleTask_ok_facts h hok
  obtain ⟨hnd, hlb, hub, hmax⟩ := hok'
  have hlhs' : acctLHS st' ≤ acctLHS st + 1 := hlhs
  have htot' : st'.metrics_total_tasks = st.metrics_total_tasks + 1 := htot
  have heff' : st'.metrics_hive_efficiency = st.metrics_hive_efficiency := heff
  have hacct := hinv.acct
  refine ⟨hnd, hlb, hub, hmax, by omega, ?_, ?_⟩
  · rw [heff']
    exact hinv.eff_lb
  · rw [heff']
    exact hinv.eff_ub

theorem inv_schedulerTick {now : Nat} {st st' : HiveState} (hinv : Inv st)
    (h : schedulerTick now st = Except.ok st') : Inv st' := by
  unfold schedulerTick at h
  have hok : AgentsOk { st with
      task_dependencies := st.task_dependencies.filter (fun p => !(depReady st p)) } :=
    ⟨hinv.agents_nodup, hinv.load_lb, hinv.load_ub, hinv.max_pos⟩
  obtain ⟨hok', hlhs, htot, hcomp, hfail, heff, hstrat⟩ := runSchedule_facts h hok
  obtain ⟨hnd, hlb, hub, hmax⟩ := hok'
  have hsplit := length_filter_split (depReady st) st.task_dependencies
  have hready : (readyList st).length ≤ (st.task_dependencies.filter (depReady st)).length := by
    unfold readyList
    exact filterMap_length_le _ _
  have e1 : acctLHS { st with
      task_dependencies := st.task_dependencies.filter (fun p => !(depReady st p)) } =
      st.metrics_completed_tasks + st.metrics_failed_tasks + st.active_tasks.length +
        (st.task_dependencies.filter (fun p => !(depReady st p))).length := rfl
  have e0 : acctLHS st = st.metrics_completed_tasks + st.metrics_failed_tasks +
      st.active_tasks.length + st.task_dependencies.length := rfl
  have htot' : st'.metrics_total_tasks = st.metrics_total_tasks := htot
  have heff' : st'.metrics_hive_efficiency = st.metrics_hive_efficiency := heff
  have hacct := hinv.acct
  refine ⟨hnd, hlb, hub, hmax, by omega, ?_, ?_⟩
  · rw [heff']
    exact hinv.eff_lb
  · rw [heff']
    exact hinv.eff_ub

theorem inv_registerAgent {info : AgentInfo} {st : HiveState} (hinv : Inv st)
    (hc : (countAssigned st.active_tasks info.agent_id : Int) ≤ info.current_load)
    (hu : info.current_load ≤ info.max_load) (hm : (0 : Int) < info.max_load) :
    Inv (registerAgent info st) := by
  obtain ⟨hnd, hlb, hub, hmax, hacct, hel, heu⟩ := hinv
  unfold registerAgent
  refine ⟨nodup_keys_dictInsert hnd, ?_, ?_, ?_, hacct, hel, heu⟩
  · intro p hp
    dsimp only at hp ⊢
    rcases mem_dictInsert hp with h | h
    · subst h
      exact hc
    · exact hlb p h
  · intro p hp
    rcases mem_dictInsert hp with h | h
    · subst h
      exact hu
    · exact hub p h
  · intro p hp
    rcases mem_dictInsert hp with h | h
    · subst h
      exact hm
    · exact hmax p h

theorem inv_unregisterAgent {aid : String} {st : HiveState} (hinv : Inv st) :
    Inv (unregisterAgent aid st) := by
  unfold unregisterAgent
  split
  · obtain ⟨hnd, hlb, hub, hmax, hacct, hel, heu⟩ := hinv
    refine ⟨?_, ?_, ?_, ?_, ?_, hel, heu⟩
    · exact List.Sublist.nodup ((List.filter_sublist st.agents).map Prod.fst) hnd
    · intro p hp
      dsimp only at hp ⊢
      have hp' := List.mem_filter.mp hp
      have h1 : countAssigned
          (st.active_tasks.filter (fun p => !(p.2.assigned_to = some aid))) p.1 ≤
          countAssigned st.active_tasks p.1 := countAssigned_filter_le _ _ _
      have h2 := hlb p hp'.1
      omega
    · intro p hp
      exact hub p (List.mem_filter.mp hp).1
    · intro p hp
      exact hmax p (List.mem_filter.mp hp).1
    · unfold acctLHS at hacct ⊢
      dsimp only
      have h3 : (st.active_tasks.filter (fun p => !(p.2.assigned_to = some aid))).length ≤
          st.active_tasks.length := List.length_filter_le _ _
      omega
  · exact hinv

theorem inv_dictUpdate_keep {st : HiveState} {k : String} {f : AgentInfo → AgentInfo}
    (hinv : Inv st)
    (hf : ∀ a, (f a).current_load = a.current_load ∧ (f a).max_load = a.max_load) :
    Inv { st with agents := dictUpdate k f st.agents } := by
  obtain ⟨hnd, hlb, hub, hmax, hacct, hel, heu⟩ := hinv
  refine ⟨by simpa [keys_dictUpdate] using hnd, ?_, ?_, ?_, hacct, hel, heu⟩
  · intro p hp
    dsimp only at hp ⊢
    rcases mem_dictUpdate_nodup hnd hp with ⟨hpl, _⟩ | ⟨q, hq, hqk, hpq⟩
    · exact hlb p hpl
    · subst hpq
      dsimp only
      rw [(hf q.2).1]
      exact hlb q hq
  · intro p hp
    rcases mem_dictUpdate_nodup hnd hp with ⟨hpl, _⟩ | ⟨q, hq, hqk, hpq⟩
    · exact hub p hpl
    · subst hpq
      dsimp only
      rw [(hf q.2).1, (hf q.2).2]
      exact hub q hq
  · intro p hp
    rcases mem_dictUpdate_nodup hnd hp with ⟨hpl, _⟩ | ⟨q, hq, hqk, hpq⟩
    · exact hmax p hpl
    · subst hpq
      dsimp only
      rw [(hf q.2).2]
      exact hmax q hq

theorem inv_handleHeartbeat {now : Nat} {aid : String} {st : HiveState} (hinv : Inv st) :
    Inv (handleHeartbeat now aid st) := by
  unfold handleHeartbeat
  split
  · exact inv_dictUpdate_keep hinv (fun a => ⟨rfl, rfl⟩)
  · exact hinv

theorem inv_handleStatusUpdate {aid status : String} {st : HiveState} (hinv : Inv st) :
    Inv (handleStatusUpdate aid status st) := by
  unfold handleStatusUpdate
  split
  · exact inv_dictUpdate_keep hinv (fun a => ⟨rfl, rfl⟩)
  · exact hinv

theorem agentsOk_decrement {st : HiveState} {tid : String} {task : HiveTask} {aid : String}
    (hok : AgentsOk st) (hl : dictLookup tid st.active_tasks = some task)
    (hassigned : task.assigned_to = some aid)
    {f : AgentInfo → AgentInfo}
    (hf : ∀ a, (f a).current_load = a.current_load - 1 ∧ (f a).max_load = a.max_load) :
    ((dictUpdate aid f st.agents).map Prod.fst).Nodup ∧
    (∀ p ∈ dictUpdate aid f st.agents,
      (countAssigned (dictErase tid st.active_tasks) p.1 : Int) ≤ p.2.current_load) ∧
    (∀ p ∈ dictUpdate aid f st.agents, p.2.current_load ≤ p.2.max_load) ∧
    (∀ p ∈ dictUpdate aid f st.agents, (0 : Int) < p.2.max_load) := by
  obtain ⟨hnd, hlb, hub, hmax⟩ := hok
  refine ⟨by simpa [keys_dictUpdate] using hnd, ?_, ?_, ?_⟩
  · intro p hp
    rcases mem_dictUpdate_nodup hnd hp with ⟨hpl, _⟩ | ⟨q, hq, hqk, hpq⟩
    · have h1 : countAssigned (dictErase tid st.active_tasks) p.1 ≤
          countAssigned st.active_tasks p.1 := countAssigned_filter_le _ _ _
      have h2 := hlb p hpl
      omega
    · subst hpq
      dsimp only
      have hcnt : countAssigned (dictErase tid st.active_tasks) q.1 <
          countAssigned st.active_tasks q.1 := by
        apply countAssigned_dictErase_lt hl
        rw [hassigned, hqk]
      have h2 := hlb q hq
      rw [(hf q.2).1]
      omega
  · intro p hp
    rcases mem_dictUpdate_nodup hnd hp with ⟨hpl, _⟩ | ⟨q, hq, hqk, hpq⟩
    · exact hub p hpl
    · subst hpq
      dsimp only
      rw [(hf q.2).1, (hf q.2).2]
      have := hub q hq
      omega
  · intro p hp
    rcases mem_dictUpdate_nodup hnd hp with ⟨hpl, _⟩ | ⟨q, hq, hqk, hpq⟩
    · exact hmax p hpl
    · subst hpq
      dsimp only
      rw [(hf q.2).2]
      exact hmax q hq

theorem completeAgentUpdate_fields (now : Nat) (task : HiveTask) (st : HiveState) :
    (completeAgentUpdate now task st).active_tasks = st.active_tasks ∧
    (completeAgentUpdate now task st).completed_tasks = st.completed_tasks ∧
    (completeAgentUpdate now task st).task_dependencies = st.task_dependencies ∧
    (completeAgentUpdate now task st).task_queue = st.task_queue ∧
    (completeAgentUpdate now task st).metrics_total_tasks = st.metrics_total_tasks ∧
    (completeAgentUpdate now task st).metrics_completed_tasks = st.metrics_completed_tasks ∧
    (completeAgentUpdate now task st).metrics_failed_tasks = st.metrics_failed_tasks ∧
    (completeAgentUpdate now task st).metrics_hive_efficiency = st.metrics_hive_efficiency := by
  unfold completeAgentUpdate
  split
  · split
    · exact ⟨rfl, rfl, rfl, rfl, rfl, rfl, rfl, rfl⟩
    · exact ⟨rfl, rfl, rfl, rfl, rfl, rfl, rfl, rfl⟩
  · exact ⟨rfl, rfl, rfl, rfl, rfl, rfl, rfl, rfl⟩

theorem failedAgentUpdate_fields (task : HiveTask) (st : HiveState) :
    (failedAgentUpdate task st).active_tasks = st.active_tasks ∧
    (failedAgentUpdate task st).completed_tasks = st.completed_tasks ∧
    (failedAgentUpdate task st).task_dependencies = st.task_dependencies ∧
    (failedAgentUpdate task st).task_queue = st.task_queue ∧
    (failedAgentUpdate task st).metrics_total_tasks = st.metrics_total_tasks ∧
    (failedAgentUpdate task st).metrics_completed_tasks = st.metrics_completed_tasks ∧
    (failedAgentUpdate task st).metrics_failed_tasks = st.metrics_failed_tasks ∧
    (failedAgentUpdate task st).metrics_hive_efficiency = st.metrics_hive_efficiency := by
  unfold failedAgentUpdate
  split
  · split
    · exact ⟨rfl, rfl, rfl, rfl, rfl, rfl, rfl, rfl⟩
    · exact ⟨rfl, rfl, rfl, rfl, rfl, rfl, rfl, rfl⟩
  · exact ⟨rfl, rfl, rfl, rfl, rfl, rfl, rfl, rfl⟩

theorem completeAgentUpdate_agents (now : Nat) {task : HiveTask} {st : HiveState}
    {tid : String} (hok : AgentsOk st) (hl : dictLookup tid st.active_tasks = some task) :
    ((completeAgentUpdate now task st).agents.map Prod.fst).Nodup ∧
    (∀ p ∈ (completeAgentUpdate now task st).agents,
      (countAssigned (dictErase tid st.active_tasks) p.1 : Int) ≤ p.2.current_load) ∧
    (∀ p ∈ (completeAgentUpdate now task st).agents, p.2.current_load ≤ p.2.max_load) ∧
    (∀ p ∈ (completeAgentUpdate now task st).agents, (0 : Int) < p.2.max_load) := by
  obtain ⟨hnd, hlb, hub, hmax⟩ := hok
  have hfallback : ∀ p ∈ st.agents,
      (countAssigned (dictErase tid st.active_tasks) p.1 : Int) ≤ p.2.current_load := by
    intro p hp
    have h1 : countAssigned (dictErase tid st.active_tasks) p.1 ≤
        countAssigned st.active_tasks p.1 := countAssigned_filter_le _ _ _
    have h2 := hlb p hp
    omega
  unfold completeAgentUpdate
  split
  · rename_i aid hassigned
    split
    · exact agentsOk_decrement ⟨hnd, hlb, hub, hmax⟩ hl hassigned (fun a => ⟨rfl, rfl⟩)
    · exact ⟨hnd, hfallback, hub, hmax⟩
  · exact ⟨hnd, hfallback, hub, hmax⟩

theorem failedAgentUpdate_agents {task : HiveTask} {st : HiveState}
    {tid : String} (hok : AgentsOk st) (hl : dictLookup tid st.active_tasks = some task) :
    ((failedAgentUpdate task st).agents.map Prod.fst).Nodup ∧
    (∀ p ∈ (failedAgentUpdate task st).agents,
      (countAssigned (dictErase tid st.active_tasks) p.1 : Int) ≤ p.2.current_load) ∧
    (∀ p ∈ (failedAgentUpdate task st).agents, p.2.current_load ≤ p.2.max_load) ∧
    (∀ p ∈ (failedAgentUpdate task st).agents, (0 : Int) < p.2.max_load) := by
  obtain ⟨hnd, hlb, hub, hmax⟩ := hok
  have hfallback : ∀ p ∈ st.agents,
      (countAssigned (dictErase tid st.active_tasks) p.1 : Int) ≤ p.2.current_load := by
    intro p hp
    have h1 : countAssigned (dictErase tid st.active_tasks) p.1 ≤
        countAssigned st.active_tasks p.1 := countAssigned_filter_le _ _ _
    have h2 := hlb p hp
    omega
  unfold failedAgentUpdate
  split
  · rename_i aid hassigned
    split
    · exact agentsOk_decrement ⟨hnd, hlb, hub, hmax⟩ hl hassigned (fun a => ⟨rfl, rfl⟩)
    · exact ⟨hnd, hfallback, hub, hmax⟩
  · exact ⟨hnd, hfallback, hub, hmax⟩

theorem inv_handleTaskComplete {now : Nat} {tid result : String} {st : HiveState}
    (hinv : Inv st) : Inv (handleTaskComplete now tid result st) := by
  unfold handleTaskComplete
  split
  · exact hinv
  · rename_i task hl
    obtain ⟨hnd', hlb', hub', hmax'⟩ := completeAgentUpdate_agents now
      ⟨hinv.agents_nodup, hinv.load_lb, hinv.load_ub, hinv.max_pos⟩ hl
    obtain ⟨ha, hc, hd, hq, ht, hcm, hfm, hef⟩ := completeAgentUpdate_fields now task st
    have hlen : (dictErase tid st.active_tasks).length < st.active_tasks.length :=
      length_dictErase_lt hl
    have hacct := hinv.acct
    refine ⟨hnd', ?_, hub', hmax', ?_, ?_, ?_⟩
    · intro p hp
      have := hlb' p hp
      dsimp only at hp ⊢
      rw [ha]
      exact this
    · unfold acctLHS at hacct ⊢
      dsimp only
      rw [ha, hcm, hfm, hd, ht]
      omega
    · dsimp only
      rw [hef]
      exact hinv.eff_lb
    · dsimp only
      rw [hef]
      exact hinv.eff_ub

theorem inv_handleTaskFailed {tid err : String} {st : HiveState} (hinv : Inv st) :
    Inv (handleTaskFailed tid err st) := by
  unfold handleTaskFailed
  split
  · exact hinv
  · rename_i task hl
    obtain ⟨hnd', hlb', hub', hmax'⟩ := failedAgentUpdate_agents
      ⟨hinv.agents_nodup, hinv.load_lb, hinv.load_ub, hinv.max_pos⟩ hl
    obtain ⟨ha, hc, hd, hq, ht, hcm, hfm, hef⟩ := failedAgentUpdate_fields task st
    have hlen : (dictErase tid st.active_tasks).length < st.active_tasks.length :=
      length_dictErase_lt hl
    have hacct := hinv.acct
    split
    · unfold failedRequeue
      refine ⟨hnd', ?_, hub', hmax', ?_, ?_, ?_⟩
      · intro p hp
        have := hlb' p hp
        dsimp only at hp ⊢
        rw [ha]
        exact this
      · unfold acctLHS at hacct ⊢
        dsimp only
        rw [ha, hcm, hfm, hd, ht]
        omega
      · dsimp only
        rw [hef]
        exact hinv.eff_lb
      · dsimp only
        rw [hef]
        exact hinv.eff_ub
    · unfold failedTerminal
      refine ⟨hnd', ?_, hub', hmax', ?_, ?_, ?_⟩
      · intro p hp
        have := hlb' p hp
        dsimp only at hp ⊢
        rw [ha]
        exact this
      · unfold acctLHS at hacct ⊢
        dsimp only
        rw [ha, hcm, hfm, hd, ht]
        omega
      · dsimp only
        rw [hef]
        exact hinv.eff_lb
      · dsimp only
        rw [hef]
        exact hinv.eff_ub

theorem foldl_unregister_inv (ids : List String) :
    ∀ s : HiveState, Inv s → Inv (ids.foldl (fun s aid => unregisterAgent aid s) s) := by
  induction ids with
  | nil => exact fun s hs => hs
  | cons a as ih =>
    intro s hs
    rw [List.foldl_cons]
    exact ih _ (inv_unregisterAgent hs)

theorem inv_healthMonitorTick {now : Nat} {st : HiveState} (hinv : Inv st) :
    Inv (healthMonitorTick now st) :=
  foldl_unregister_inv _ _ hinv

theorem inv_calculateHiveEfficiency {st : HiveState} (hinv : Inv st) :
    Inv (calculateHiveEfficiency st) := by
  unfold calculateHiveEfficiency
  split
  · rename_i htot
    obtain ⟨hnd, hlb, hub, hmax, hacct, hel, heu⟩ := hinv
    have hcle : st.metrics_completed_tasks ≤ st.metrics_total_tasks := by
      unfold acctLHS at hacct
      omega
    have hrate0 : (0 : ℚ) ≤ (st.metrics_completed_tasks : ℚ) / (st.metrics_total_tasks : ℚ) :=
      div_nonneg (by positivity) (by positivity)
    have hrate1 : (st.metrics_completed_tasks : ℚ) / (st.metrics_total_tasks : ℚ) ≤ 1 := by
      rw [div_le_one (by exact_mod_cast htot)]
      exact_mod_cast hcle
    have hbounds : ∀ p ∈ st.agents, 0 ≤ p.2.current_load ∧ (0 : Int) < p.2.max_load := by
      intro p hp
      exact ⟨le_trans (Int.natCast_nonneg _) (hlb p hp), hmax p hp⟩
    have hutil0 : (0 : ℚ) ≤
        (if st.agents ≠ [] then utilizationSum st.agents / (st.agents.length : ℚ) else 0) := by
      split
      · exact div_nonneg (utilizationSum_nonneg hbounds) (by positivity)
      · exact le_refl 0
    have hutil1 :
        (if st.agents ≠ [] then utilizationSum st.agents / (st.agents.length : ℚ) else 0) ≤ 1 := by
      split
      · rename_i hne
        rw [div_le_one (by exact_mod_cast List.length_pos.mpr hne)]
        exact utilizationSum_le_length (fun p hp => ⟨hub p hp, hmax p hp⟩)
      · exact zero_le_one
    refine ⟨hnd, hlb, hub, hmax, hacct, ?_, ?_⟩
    · dsimp only
      have h1 := mul_nonneg hrate0 (by norm_num : (0 : ℚ) ≤ 3 / 5)
      have h2 := mul_nonneg hutil0 (by norm_num : (0 : ℚ) ≤ 2 / 5)
      linarith
    · dsimp only
      have h1 := mul_le_mul_of_nonneg_right hrate1 (by norm_num : (0 : ℚ) ≤ 3 / 5)
      have h2 := mul_le_mul_of_nonneg_right hutil1 (by norm_num : (0 : ℚ) ≤ 2 / 5)
      linarith
  · exact hinv

theorem reach_inv {st : HiveState} (h : Reach st) : Inv st := by
  induction h with
  | init strategy =>
    exact ⟨List.nodup_nil, fun p hp => absurd hp (List.not_mem_nil p),
      fun p hp => absurd hp (List.not_mem_nil p), fun p hp => absurd hp (List.not_mem_nil p),
      le_refl 0, le_refl 0, zero_le_one⟩
  | register info hr hc hu hm ih => exact inv_registerAgent ih hc hu hm
  | unregister aid hr ih => exact inv_unregisterAgent ih
  | heartbeat now aid hr ih => exact inv_handleHeartbeat ih
  | statusUpdate aid status hr ih => exact inv_handleStatusUpdate ih
  | submit now task hr hstrat heq ih => exact inv_submitTask ih heq
  | tick now hr hstrat heq ih => exact inv_schedulerTick ih heq
  | health now hr ih => exact inv_healthMonitorTick ih
  | taskComplete now tid result hr ih => exact inv_handleTaskComplete ih
  | taskFailed tid err hr ih => exact inv_handleTaskFailed ih
  | metricsTick hr ih => exact inv_calculateHiveEfficiency ih

end InvLemmas

section TickLemmas

theorem scheduleTask_queue_eq {now : Nat} {task : HiveTask} {st st' : HiveState}
    (h : scheduleTask now task st = Except.ok st') : st'.task_queue = st.task_queue := by
  rcases scheduleTask_cases h with h1 | h1 | ⟨aid, _, h1⟩ <;> subst h1 <;> rfl

theorem scheduleTask_lookup_ne {now : Nat} {task : HiveTask} {st st' : HiveState}
    {tid : String} (h : scheduleTask now task st = Except.ok st')
    (hne : tid ≠ task.task_id) :
    dictLookup tid st'.active_tasks = dictLookup tid st.active_tasks := by
  rcases scheduleTask_cases h with h1 | h1 | ⟨aid, _, h1⟩ <;> subst h1
  · rfl
  · rfl
  · exact dictLookup_dictInsert_ne hne _ _

theorem scheduleTask_tdep_mem {now : Nat} {task : HiveTask} {st st' : HiveState}
    {e : String × List String} (h : scheduleTask now task st = Except.ok st')
    (he : e ∈ st.task_dependencies) (hne : e.1 ≠ task.task_id) :
    e ∈ st'.task_dependencies := by
  rcases scheduleTask_cases h with h1 | h1 | ⟨aid, _, h1⟩ <;> subst h1
  · exact mem_dictInsert_of_ne he hne
  · exact he
  · exact he

theorem runSchedule_untouched {now : Nat} {tid : String} :
    ∀ {ts : List HiveTask} {s s' : HiveState},
      runSchedule now s ts = Except.ok s' →
      (∀ r ∈ ts, r.task_id ≠ tid) →
      (∀ u ∈ s.task_queue, u.task_id = tid → u ∈ s'.task_queue) ∧
      dictLookup tid s'.active_tasks = dictLookup tid s.active_tasks ∧
      (∀ e : String × List String, e ∈ s.task_dependencies → e.1 = tid →
        e ∈ s'.task_dependencies) := by
  intro ts
  induction ts with
  | nil =>
    intro s s' h hids
    injection h with h
    subst h
    exact ⟨fun u hu _ => hu, rfl, fun e he _ => he⟩
  | cons t ts ih =>
    intro s s' h hids
    unfold runSchedule at h
    split at h
    · exact absurd h (by simp)
    · rename_i s1 hstep
      have htid : t.task_id ≠ tid := hids t (List.mem_cons_self _ _)
      have hstep' : scheduleTask now t { s with task_queue := removeFirstTask t s.task_queue } =
          Except.ok s1 := hstep
      have hq := scheduleTask_queue_eq hstep'
      have hlk := scheduleTask_lookup_ne hstep' (fun hc => htid hc.symm)
      obtain ⟨ih1, ih2, ih3⟩ := ih h (fun r hr => hids r (List.mem_cons_of_mem _ hr))
      refine ⟨?_, ?_, ?_⟩
      · intro u hu hutid
        apply ih1 u ?_ hutid
        rw [hq]
        exact mem_removeFirstTask_of_ne hu (fun hue => htid (hue ▸ hutid))
      · rw [ih2, hlk]
      · intro e he hetid
        refine ih3 e ?_ hetid
        exact scheduleTask_tdep_mem hstep' he (by rw [hetid]; exact fun hc => htid hc.symm)

theorem readyList_ids {st : HiveState} {r : HiveTask} (h : r ∈ readyList st) :
    ∃ p ∈ st.task_dependencies, depReady st p = true ∧ r.task_id = p.1 := by
  unfold readyList at h
  rcases List.mem_filterMap.mp h with ⟨p, hp, hfind⟩
  have hpf := List.mem_filter.mp hp
  exact ⟨p, hpf.1, hpf.2, findTaskInQueue_id hfind⟩

theorem schedulerTick_untouched {now : Nat} {st st' : HiveState} {tid : String}
    (h : schedulerTick now st = Except.ok st')
    (hnr : ∀ deps, (tid, deps) ∈ st.task_dependencies → depReady st (tid, deps) = false) :
    (∀ u ∈ st.task_queue, u.task_id = tid → u ∈ st'.task_queue) ∧
    dictLookup tid st'.active_tasks = dictLookup tid st.active_tasks ∧
    (∀ deps, (tid, deps) ∈ st.task_dependencies → (tid, deps) ∈ st'.task_dependencies) := by
  unfold schedulerTick at h
  have hids : ∀ r ∈ readyList st, r.task_id ≠ tid := by
    intro r hr hc
    obtain ⟨p, hp, hpr, hrid⟩ := readyList_ids hr
    obtain ⟨p1, p2⟩ := p
    have hp1 : p1 = tid := hrid.symm.trans hc
    subst hp1
    simp [hnr p2 hp] at hpr
  obtain ⟨h1, h2, h3⟩ := runSchedule_untouched h hids
  refine ⟨?_, h2, ?_⟩
  · intro u hu hutid
    exact h1 u hu hutid
  · intro deps hdeps
    refine h3 (tid, deps) ?_ rfl
    exact List.mem_filter.mpr ⟨hdeps, by rw [hnr deps hdeps]; rfl⟩

theorem depReady_false_of_incomplete {st : HiveState} {tid : String} {deps : List String}
    {d : String} (hd : d ∈ deps) (hnc : d ∉ completedIds st) :
    depReady st (tid, deps) = false := by
  unfold depReady
  have hall : deps.all (fun d => d ∈ completedIds st) = false := by
    rw [List.all_eq_false]
    exact ⟨d, hd, by simpa using hnc⟩
  rw [hall]
  rfl

theorem submitTask_spec {now : Nat} {task : HiveTask} {st : HiveState}
    (hstrat : st.distribution_strategy ≠ TaskDistributionStrategy.AUCTION_BASED)
    (hdeps : ∀ d ∈ task.dependencies, d ∈ completedIds st)
    (hav : getAvailableAgents now task.required_capabilities st ≠ []) :
    ∃ st' aid, submitTask now task st = Except.ok st' ∧
      aid ∈ getAvailableAgents now task.required_capabilities st ∧
      dictLookup task.task_id st'.active_tasks = some (stampTask now aid task) ∧
      task ∈ st'.task_queue := by
  unfold submitTask
  have hstrat' : (enqueueTask task st).distribution_strategy ≠
      TaskDistributionStrategy.AUCTION_BASED := hstrat
  cases hav2 : getAvailableAgents now task.required_capabilities st with
  | nil => exact absurd hav2 hav
  | cons a rest =>
    have hav2' : getAvailableAgents now task.required_capabilities (enqueueTask task st) =
        a :: rest := hav2
    obtain ⟨aid, hsel⟩ := selectAgent_some_of_available hstrat' hav2'
    have hready : scheduleReady now task (enqueueTask task st) =
        Except.ok (assignTaskToAgent now task aid (enqueueTask task st)) := by
      unfold scheduleReady
      rw [hsel]
    have hsched : scheduleTask now task (enqueueTask task st) =
        Except.ok (assignTaskToAgent now task aid (enqueueTask task st)) := by
      unfold scheduleTask
      by_cases hdep : task.dependencies ≠ []
      · have hinc : ¬ task.dependencies.filter
            (fun d => d ∉ completedIds (enqueueTask task st)) ≠ [] := by
          simp only [ne_eq, not_not]
          rw [List.filter_eq_nil_iff]
          intro d hd
          simpa using hdeps d hd
        rw [if_pos hdep, if_neg hinc]
        exact hready
      · rw [if_neg hdep]
        exact hready
    have hmem : aid ∈ a :: rest := by
      rw [← hav2']
      exact selectAgent_ok_some_mem hsel
    refine ⟨_, aid, hsched, hmem, ?_, ?_⟩
    · exact dictLookup_dictInsert _ _ _
    · show task ∈ sortByPriority (st.task_queue ++ [task])
      rw [mem_sortByPriority]
      exact List.mem_append_right _ (List.mem_singleton.mpr rfl)

end TickLemmas

section SupportLemmas

theorem utilizationSum_eq (l : List (String × AgentInfo)) :
    utilizationSum l =
      ((l.map (fun p => (p.2.current_load, p.2.max_load))).map
        (fun q => (q.1 : ℚ) / (q.2 : ℚ))).sum := by
  rw [List.map_map]
  rfl

theorem handleTaskFailed_eq {tid : String} (err : String) {st : HiveState} {task : HiveTask}
    (hl : dictLookup tid st.active_tasks = some task) :
    handleTaskFailed tid err st =
      if task.priority < 3 then failedRequeue tid err task st
      else failedTerminal tid err task st := by
  unfold handleTaskFailed
  rw [hl]

end SupportLemmas

section Claims

/-- C1 (counterexample): a dependency-free task submitted while no agent is
eligible stays queued, and the next scheduler tick does not re-attempt its
assignment even though an eligible agent has registered in the meantime — the
tick is the identity here, contradicting the claim that assignment is
re-attempted on the next scheduler tick. -/
theorem C1_counterexample :
    (submitTask 0 c1Task (initState .ROUND_ROBIN)).toOption = some c1St1 ∧
    getAvailableAgents 0 c1Task.required_capabilities c1St2 = ["a1"] ∧
    c1Task ∈ c1St2.task_queue ∧
    c1St2.active_tasks = [] ∧
    c1St2.task_dependencies = [] ∧
    schedulerTick 0 c1St2 = Except.ok c1St3 ∧
    c1St3 = c1St2 :=
  ⟨rfl, by decide, by decide, rfl, rfl, rfl, rfl⟩

/-- C1 (amended): under a non-auction strategy, a task whose dependency set is
empty or fully satisfied is assigned to one of the available agents
immediately during `submit_task` when at least one agent is eligible; but a
queued task with no dependency entry is never touched by a scheduler tick —
it stays in the queue and is not assigned, because the tick re-examines only
dependency-blocked tasks. -/
theorem C1_submit_and_tick :
    (∀ (now : Nat) (task : HiveTask) (st : HiveState),
      st.distribution_strategy ≠ TaskDistributionStrategy.AUCTION_BASED →
      (∀ d ∈ task.dependencies, d ∈ completedIds st) →
      getAvailableAgents now task.required_capabilities st ≠ [] →
      submitAssigns now task st) ∧
    (∀ (now : Nat) (st st' : HiveState) (task : HiveTask),
      schedulerTick now st = Except.ok st' →
      task ∈ st.task_queue →
      (∀ deps, (task.task_id, deps) ∉ st.task_dependencies) →
      dictLookup task.task_id st.active_tasks = none →
      task ∈ st'.task_queue ∧ dictLookup task.task_id st'.active_tasks = none) := by
  constructor
  · intro now task st hstrat hdeps hav
    obtain ⟨st', aid, h1, h2, h3, h4⟩ := submitTask_spec hstrat hdeps hav
    exact ⟨st', aid, h1, h2, h3⟩
  · intro now st st' task h hq hnd hna
    obtain ⟨h1, h2, _⟩ := schedulerTick_untouched h
      (fun deps hmem => absurd hmem (hnd deps))
    exact ⟨h1 task hq rfl, h2.trans hna⟩

/-- C1 (witness): both parts of the amended claim at concrete inputs — the
submission path assigns `w1` on a one-agent registry, and the scheduler tick
leaves the queued dependency-free task `t1` unassigned. -/
theorem C1_witness :
    submitAssigns 0 c1WTask c1WSt ∧
    (c1Task ∈ c1St3.task_queue ∧ dictLookup "t1" c1St3.active_tasks = none) := by
  constructor
  · exact C1_submit_and_tick.1 0 c1WTask c1WSt (by decide) (by decide) (by decide)
  · exact C1_submit_and_tick.2 0 c1St2 c1St3 c1Task rfl (by decide)
      (by
        intro deps hmem
        rw [show c1St2.task_dependencies = [] from rfl] at hmem
        exact absurd hmem (List.not_mem_nil _))
      (by decide)

/-- C2 (counterexample): register an agent, submit a task (auto-assigned,
load 1), register the same agent id again (the registry entry is overwritten
with load 0 while the task is still active), then complete the task — the
handler decrements the load to -1, violating `0 ≤ current_load`. -/
theorem C2_counterexample :
    ((dictLookup "a1" c2St4.agents).map AgentInfo.current_load) = some (-1) ∧
    ¬ (0 : Int) ≤ (-1 : Int) :=
  ⟨rfl, by decide⟩

/-- C2 (amended): along every operation sequence in which each registration
carries a load that covers the active tasks already assigned to that id and
lies within a positive capacity (and scheduling runs under a non-auction
strategy), every registered agent satisfies `0 ≤ current_load ≤ max_load`. -/
theorem C2_load_invariant (st : HiveState) (h : Reach st) :
    ∀ p ∈ st.agents, 0 ≤ p.2.current_load ∧ p.2.current_load ≤ p.2.max_load := by
  have hinv := reach_inv h
  intro p hp
  exact ⟨le_trans (Int.natCast_nonneg _) (hinv.load_lb p hp), hinv.load_ub p hp⟩

/-- C2 (witness): the invariant instantiated on the reachable one-agent
registry obtained by a single registration. -/
theorem C2_witness :
    0 ≤ c2Info.current_load ∧ c2Info.current_load ≤ c2Info.max_load :=
  C2_load_invariant (registerAgent c2Info (initState .ROUND_ROBIN))
    (Reach.register c2Info (Reach.init _) (by decide) (by decide) (by decide))
    ("a1", c2Info) (by decide)

/-- C3 (counterexample): task B waits on task A; A fails terminally at
priority 3 (its `error` is set and `completed_at` stays `None`), yet A is
appended to the completed list, so the next scheduler tick promotes B out of
Waiting and assigns it — a terminally Failed dependency does satisfy the
dependency, contradicting the claim. -/
theorem C3_counterexample :
    c3St3.task_dependencies = [("B", ["A"])] ∧
    (c3St4.completed_tasks.map (fun t => (t.task_id, t.error, t.completed_at))) =
      [("A", some "boom", none)] ∧
    schedulerTick 0 c3St4 = Except.ok c3St5 ∧
    (dictLookup "B" c3St5.active_tasks).isSome = true ∧
    c3St5.task_dependencies = [] :=
  ⟨rfl, rfl, rfl, rfl, rfl⟩

/-- C3 (amended): a dependency-blocked task stays in the Waiting partition
across a scheduler tick (its dependency entry survives and it is not
activated) as long as some recorded dependency id is missing from the
terminal `completed_tasks` list; that list, however, also contains terminally
Failed tasks, so a Failed dependency satisfies the requirement. -/
theorem C3_waiting_until_terminal (now : Nat) (st st' : HiveState) (tid d : String)
    (deps : List String) (h : schedulerTick now st = Except.ok st')
    (hmem : (tid, deps) ∈ st.task_dependencies)
    (huniq : ∀ deps2, (tid, deps2) ∈ st.task_dependencies → deps2 = deps)
    (hd : d ∈ deps) (hnc : d ∉ completedIds st)
    (hna : dictLookup tid st.active_tasks = none) :
    (tid, deps) ∈ st'.task_dependencies ∧
    dictLookup tid st'.active_tasks = none := by
  have hnr : ∀ deps2, (tid, deps2) ∈ st.task_dependencies →
      depReady st (tid, deps2) = false := by
    intro deps2 hm2
    rw [huniq deps2 hm2]
    exact depReady_false_of_incomplete hd hnc
  obtain ⟨h1, h2, h3⟩ := schedulerTick_untouched h hnr
  exact ⟨h3 deps hmem, h2.trans hna⟩

/-- C3 (witness): task B, waiting on the incomplete dependency A, is still
waiting and inactive after a scheduler tick. -/
theorem C3_witness :
    ("B", ["A"]) ∈ c3WSt.task_dependencies ∧
    dictLookup "B" c3WSt.active_tasks = none :=
  C3_waiting_until_terminal 0 c3St3 c3WSt "B" "A" ["A"] rfl (by decide)
    (by
      intro deps2 hm
      rw [show c3St3.task_dependencies = [("B", ["A"])] from rfl] at hm
      exact congrArg Prod.snd (List.mem_singleton.mp hm))
    (by decide) (by decide) (by decide)

/-- C4 (counterexample): `register_agent` has no capacity check — with the
registry already holding one agent (at or above any configured maximum of 1),
registering a second agent succeeds and mutates the registry, the connection
table and the metrics, instead of returning a capacity error and leaving the
state unchanged. -/
theorem C4_counterexample :
    c4St1.agents.length = 1 ∧
    (registerAgent c4B c4St1).agents.length = 2 ∧
    (registerAgent c4B c4St1).metrics_total_agents = c4St1.metrics_total_agents + 1 ∧
    (registerAgent c4B c4St1).agent_connections = ["a1", "a2"] :=
  ⟨rfl, rfl, rfl, rfl⟩

/-- C4 (amended): coordinator registration always succeeds, at any registry
size: the agent is stored under its id, its connection is recorded, and both
agent metrics are incremented — there is no capacity error path. -/
theorem C4_register_always_succeeds (info : AgentInfo) (st : HiveState) :
    dictLookup info.agent_id (registerAgent info st).agents = some info ∧
    (registerAgent info st).metrics_total_agents = st.metrics_total_agents + 1 ∧
    (registerAgent info st).metrics_active_agents = st.metrics_active_agents + 1 ∧
    info.agent_id ∈ (registerAgent info st).agent_connections := by
  refine ⟨dictLookup_dictInsert _ _ _, rfl, rfl, ?_⟩
  unfold registerAgent
  dsimp only
  split
  · rename_i hc
    simpa using hc
  · exact List.mem_append_right _ (List.mem_singleton.mpr rfl)

/-- C5 (confirmed): an Active task reported failed with priority strictly
more urgent than Medium (numeric value < 3) re-enters the queue with its
error recorded and assignment and start cleared and leaves the active map,
with the failed metric untouched; any other Active task becomes terminally
Failed — it moves to the completed list, leaves the active map, and the
failed metric is incremented. -/
theorem C5_task_failed_handling (st : HiveState) (tid err : String) (task : HiveTask)
    (hl : dictLookup tid st.active_tasks = some task) :
    (task.priority < Priority.value Priority.MEDIUM →
      { task with error := some err, assigned_to := none, started_at := none } ∈
          (handleTaskFailed tid err st).task_queue ∧
        dictLookup tid (handleTaskFailed tid err st).active_tasks = none ∧
        (handleTaskFailed tid err st).metrics_failed_tasks = st.metrics_failed_tasks) ∧
    (Priority.value Priority.MEDIUM ≤ task.priority →
      { task with error := some err } ∈ (handleTaskFailed tid err st).completed_tasks ∧
        dictLookup tid (handleTaskFailed tid err st).active_tasks = none ∧
        (handleTaskFailed tid err st).metrics_failed_tasks = st.metrics_failed_tasks + 1) := by
  have he := handleTaskFailed_eq err hl
  obtain ⟨ha, hc, hd, hq, ht, hcm, hfm, hef⟩ := failedAgentUpdate_fields task st
  constructor
  · intro hpri
    have hpri' : task.priority < 3 := hpri
    rw [he, if_pos hpri']
    unfold failedRequeue
    refine ⟨?_, ?_, ?_⟩
    · dsimp only
      rw [hq]
      exact List.mem_append_right _ (List.mem_singleton.mpr rfl)
    · dsimp only
      rw [ha]
      exact dictLookup_dictErase_self _ _
    · dsimp only
      exact hfm
  · intro hpri
    have hpri' : ¬ task.priority < 3 := by
      have h3 : (3 : Int) ≤ task.priority := hpri
      omega
    rw [he, if_neg hpri']
    unfold failedTerminal
    refine ⟨?_, ?_, ?_⟩
    · dsimp only
      rw [hc]
      exact List.mem_append_right _ (List.mem_singleton.mpr rfl)
    · dsimp only
      rw [ha]
      exact dictLookup_dictErase_self _ _
    · dsimp only
      rw [hfm]

/-- C5 (witness): the handler applied to a concrete active Critical task,
which is requeued with assignment cleared. -/
theorem C5_witness :
    { c5Active with error := some "e", assigned_to := none, started_at := none } ∈
        (handleTaskFailed "t1" "e" c5St).task_queue ∧
      dictLookup "t1" (handleTaskFailed "t1" "e" c5St).active_tasks = none ∧
      (handleTaskFailed "t1" "e" c5St).metrics_failed_tasks = c5St.metrics_failed_tasks :=
  (C5_task_failed_handling c5St "t1" "e" c5Active (by decide)).1 (by decide)

/-- C6 (counterexample): the registry accepts any `AgentInfo`, including one
with `current_load = 20` of `max_load = 5`; after one submitted and completed
task the completion rate is 1 and the average utilization is 2, so the
computed hive efficiency is 1.4, outside `[0, 1]`. -/
theorem C6_counterexample :
    c6St5.metrics_hive_efficiency = 7 / 5 ∧ ¬ c6St5.metrics_hive_efficiency ≤ 1 := by
  have htot : c6St4.metrics_total_tasks = 1 := rfl
  have hcomp : c6St4.metrics_completed_tasks = 1 := rfl
  have hmap : c6St4.agents.map (fun p => (p.2.current_load, p.2.max_load)) =
      [(20, 5), (0, 5)] := by decide
  have hlen : c6St4.agents.length = 2 := by
    have h := congrArg List.length hmap
    simpa using h
  have hne : c6St4.agents ≠ [] := by decide
  have husum : utilizationSum c6St4.agents = 4 := by
    rw [utilizationSum_eq, hmap]
    norm_num
  have heff : c6St5.metrics_hive_efficiency = 7 / 5 := by
    show (calculateHiveEfficiency c6St4).metrics_hive_efficiency = 7 / 5
    rw [calculateHiveEfficiency]
    rw [if_pos (by rw [htot]; norm_num)]
    simp only [htot, hcomp, hlen, husum]
    rw [if_pos hne]
    norm_num
  refine ⟨heff, ?_⟩
  rw [heff]
  norm_num

/-- C6 (amended): along every operation sequence whose registrations carry a
load covering the id's active tasks within a positive capacity (non-auction
scheduling), the efficiency value computed by the metrics pass lies in
`[0, 1]`. -/
theorem C6_efficiency_bounds (st : HiveState) (h : Reach st) :
    0 ≤ (calculateHiveEfficiency st).metrics_hive_efficiency ∧
    (calculateHiveEfficiency st).metrics_hive_efficiency ≤ 1 := by
  have hinv := inv_calculateHiveEfficiency (reach_inv h)
  exact ⟨hinv.eff_lb, hinv.eff_ub⟩

/-- C6 (witness): the bound instantiated on the freshly initialised
coordinator. -/
theorem C6_witness :
    0 ≤ (calculateHiveEfficiency (initState .ROUND_ROBIN)).metrics_hive_efficiency ∧
    (calculateHiveEfficiency (initState .ROUND_ROBIN)).metrics_hive_efficiency ≤ 1 :=
  C6_efficiency_bounds _ (Reach.init _)

/-- C7 (code bug): the health monitor compares `timedelta.seconds` — the age
modulo 86400 — against 30, so an agent whose heartbeat is 86430 seconds old
(one day plus 30 s, well past the timeout) is NOT evicted: the tick leaves
the registry and its in-flight task untouched.  For a same-day age of 40
seconds the eviction and requeue do work as specified. -/
theorem C7_stale_agent_survives :
    (30 : Int) < (86430 : Int) - (c7Agent.last_heartbeat : Int) ∧
    pySeconds ((86430 : Int) - (c7Agent.last_heartbeat : Int)) = 30 ∧
    healthMonitorTick 86430 c7St = c7St ∧
    dictLookup "t3" (healthMonitorTick 86430 c7St).active_tasks = some c7Active ∧
    (healthMonitorTick 40 c7St).agents = [] ∧
    (healthMonitorTick 40 c7St).task_queue =
      [{ c7Active with assigned_to := none, started_at := none }] :=
  ⟨by decide, by decide, rfl, rfl, rfl, rfl⟩

/-- C8 (code bug): under the auction strategy, with one registered (hence
connected) eligible agent, `send_message` returns a `Bool` and the auction
calls `.get` on it — the selection raises `AttributeError` instead of
collecting bids, and the exception propagates out of `submit_task`. -/
theorem C8_auction_raises :
    getAvailableAgents 0 c8Task.required_capabilities c8St = ["a1"] ∧
    runTaskAuction ["a1"] c8St = Except.error "AttributeError" ∧
    selectAgentForTask 0 c8St c8Task = Except.error "AttributeError" ∧
    submitTask 0 c8Task c8St = Except.error "AttributeError" :=
  ⟨by decide, rfl, rfl, rfl⟩

/-- C9 (confirmed): assignment does not remove a submitted task from the
pending queue — after `submit_task` of a dependency-free task with an
eligible agent under a non-auction strategy, the task is simultaneously in
`task_queue` and in `active_tasks`, and `get_status` counts it in both
`queued_tasks` and `active_tasks`. -/
theorem C9_dual_membership (now : Nat) (task : HiveTask) (st : HiveState)
    (hstrat : st.distribution_strategy ≠ TaskDistributionStrategy.AUCTION_BASED)
    (hdeps : task.dependencies = [])
    (hav : getAvailableAgents now task.required_capabilities st ≠ []) :
    dualMembership now task st := by
  obtain ⟨st', aid, h1, h2, h3, h4⟩ := submitTask_spec hstrat
    (by rw [hdeps]; intro d hd; cases hd) hav
  refine ⟨st', h1, h4, by rw [h3]; rfl, ?_, ?_⟩
  · exact List.length_pos.mpr (List.ne_nil_of_mem h4)
  · exact List.length_pos.mpr (List.ne_nil_of_mem (dictLookup_mem h3))

/-- C9 (witness): the dual membership at a concrete submission. -/
theorem C9_witness : dualMembership 0 c9Task c9St :=
  C9_dual_membership 0 c9Task c9St (by decide) rfl (by decide)

/-- C10 (confirmed): under the round-robin strategy the selector is the pure
function returning the first eligible agent in canonical registration order
(`available_agents[0]`); repeated invocations over unchanged registries are
stable — any two states with the same registry select the same agent. -/
theorem C10_round_robin_first (now : Nat) (task : HiveTask) (st1 st2 : HiveState)
    (h1 : st1.distribution_strategy = TaskDistributionStrategy.ROUND_ROBIN)
    (h2 : st2.distribution_strategy = TaskDistributionStrategy.ROUND_ROBIN)
    (hag : st1.agents = st2.agents) :
    selectAgentForTask now st1 task =
      Except.ok ((getAvailableAgents now task.required_capabilities st1).head?) ∧
    selectAgentForTask now st1 task = selectAgentForTask now st2 task := by
  have key : ∀ st : HiveState,
      st.distribution_strategy = TaskDistributionStrategy.ROUND_ROBIN →
      selectAgentForTask now st task =
        Except.ok ((getAvailableAgents now task.required_capabilities st).head?) := by
    intro st hst
    unfold selectAgentForTask
    cases hav : getAvailableAgents now task.required_capabilities st
    · rfl
    · rw [hst]
      rfl
  refine ⟨key st1 h1, ?_⟩
  rw [key st1 h1, key st2 h2, getAvailableAgents_congr hag]

/-- C10 (witness): on a two-agent registry the round-robin selector returns
the head of the availability list, and repetition on the same registry is
stable. -/
theorem C10_witness :
    selectAgentForTask 0 c10St c10Task =
      Except.ok ((getAvailableAgents 0 c10Task.required_capabilities c10St).head?) ∧
    selectAgentForTask 0 c10St c10Task = selectAgentForTask 0 c10St c10Task :=
  C10_round_robin_first 0 c10Task c10St c10St rfl rfl rfl

end Claims

end AgentZero
